import Mathlib

/-!
# RespDuino: a shallow embedding of the bellows-ventilator controller

The development embeds `src/src/main.cpp` and `src/src/ultrasonic.cpp`.

Modelling conventions.

* The module-level variables of `main.cpp` are the fields of `State`; every
  function takes the state and returns the new one together with the list of
  hardware writes (`Event`) it performed, in program order.
* The environment is the record `Input`: what `pulseIn`, `digitalRead` and
  `millis` return during one pass of `loop`.  Both calls of `millis()` in one
  pass (lines 234 and 238) return the same value `Input.millis`.
* `int` and `long` variables are `Int`.  No arithmetic on them can overflow:
  the only arithmetic is `index + 1` under the guard `index < 13`,
  `index - 1` under `index > 0`, and `20 - us / 29 / 2` on a `long`.
* `unsigned long` values are `Nat`; the subtraction of line 238 wraps
  modulo `2 ^ 32` (`ulongSub`).
* Reading `motor_curve` outside its 14 entries is undefined behaviour; the
  model returns `none` there (`readCurve`).
* `Serial.print`, `pinMode` and `delay` have no effect on the state or on the
  actuators and are left out.
-/

namespace RespDuino

/-! ## Configuration (main.cpp lines 11-37, 58) -/

def vesselHeight : Int := 20
def tidal : Int := 12
def safety : Int := 4
def highWaterMark : Int := vesselHeight - safety
def lowWaterMark : Int := vesselHeight - safety - tidal
def centerWaterMark : Int := Int.tdiv vesselHeight 2

def motor_a2f : Nat := 2
def motor_a2e : Nat := 3
def motor_b2f : Nat := 4
def motor_b2e : Nat := 5
def common_ping : Nat := 6
def echo_a : Nat := 7
def echo_b : Nat := 8
def solenoid_a1 : Nat := 9
def solenoid_b1 : Nat := 10
def led : Nat := 13
def button_1 : Nat := 14

def HIGH : Int := 1
def LOW : Int := 0

/-- The table `motor_curve` of line 36: fourteen entries. -/
def motor_curve : List Nat :=
  [1, 3, 8, 18, 38, 78, 128, 177, 217, 237, 247, 252, 254, 255]

def motor_curve_len : Int := 13

def debounceDelay : Nat := 150

/-! ## Hardware writes -/

/-- One write to a pin, as performed by `analogWrite` or `digitalWrite`. -/
inductive Event where
  | analogWrite (pin : Nat) (value : Nat)
  | digitalWrite (pin : Nat) (value : Int)
  deriving DecidableEq, Repr

/-! ## State (main.cpp lines 39-57) -/

/-- The mutable globals of `main.cpp`. -/
structure State where
  running : Int
  raisingA : Int
  raisingB : Int
  motor_a2f_index : Int
  motor_a2e_index : Int
  motor_b2f_index : Int
  motor_b2e_index : Int
  ledState : Int
  buttonState : Int
  lastButtonState : Int
  lastDebounceTime : Nat
  deriving DecidableEq, Repr

/-- The values of the globals at program start.  `buttonState` has no
initialiser and is zero-initialised, as every C++ global is. -/
def initState : State where
  running := 0
  raisingA := 0
  raisingB := 0
  motor_a2f_index := 0
  motor_a2e_index := 0
  motor_b2f_index := 0
  motor_b2e_index := 0
  ledState := LOW
  buttonState := 0
  lastButtonState := LOW
  lastDebounceTime := 0

/-- What the environment returns during one pass of `loop`. -/
structure Input where
  /-- result of `pulseIn(echo_a, HIGH, 10000)`, as the `long` argument of
  `microsecondsToCentimeters` -/
  echoA : Int
  /-- result of `pulseIn(echo_b, HIGH, 10000)` -/
  echoB : Int
  /-- result of `digitalRead(button_1)` -/
  reading : Int
  /-- result of `millis()` -/
  millis : Nat
  deriving DecidableEq, Repr

/-! ## Motor ramp (main.cpp lines 65-109) -/

/-- The read `motor_curve[i]`; `none` outside the table. -/
def readCurve (i : Int) : Option Nat :=
  if 0 ≤ i then motor_curve[i.toNat]? else none

/-- The function `runPumpA` of lines 65-83. -/
def runPumpA (direction : Int) (s : State) : Option (State × List Event) :=
  if direction > 0 then
    let s1 := { s with motor_a2f_index :=
      if s.motor_a2f_index < motor_curve_len then s.motor_a2f_index + 1 else motor_curve_len }
    match readCurve s1.motor_a2f_index with
    | none => none
    | some v1 =>
      let s2 := { s1 with motor_a2e_index :=
        if s1.motor_a2e_index < motor_curve_len then s1.motor_a2e_index + 1 else motor_curve_len }
      match readCurve s2.motor_a2e_index with
      | none => none
      | some v2 => some (s2, [Event.analogWrite motor_a2f v1, Event.analogWrite motor_a2e v2])
  else if direction < 0 then
    let s1 := { s with motor_a2f_index :=
      if s.motor_a2f_index > 0 then s.motor_a2f_index - 1 else 0 }
    match readCurve s1.motor_a2f_index with
    | none => none
    | some v1 =>
      let s2 := { s1 with motor_a2e_index :=
        if s1.motor_a2e_index > 0 then s1.motor_a2e_index - 1 else 0 }
      match readCurve s2.motor_a2e_index with
      | none => none
      | some v2 => some (s2, [Event.analogWrite motor_a2f v1, Event.analogWrite motor_a2e v2])
  else
    some (s, [Event.analogWrite motor_a2f 0, Event.analogWrite motor_a2e 0])

/-- The function `runPumpB` of lines 90-109. -/
def runPumpB (direction : Int) (s : State) : Option (State × List Event) :=
  if direction > 0 then
    let s1 := { s with motor_b2f_index :=
      if s.motor_b2f_index < motor_curve_len then s.motor_b2f_index + 1 else motor_curve_len }
    match readCurve s1.motor_b2f_index with
    | none => none
    | some v1 =>
      let s2 := { s1 with motor_b2e_index :=
        if s1.motor_b2e_index < motor_curve_len then s1.motor_b2e_index + 1 else motor_curve_len }
      match readCurve s2.motor_b2e_index with
      | none => none
      | some v2 => some (s2, [Event.analogWrite motor_b2f v1, Event.analogWrite motor_b2e v2])
  else if direction < 0 then
    let s1 := { s with motor_b2f_index :=
      if s.motor_b2f_index > 0 then s.motor_b2f_index - 1 else 0 }
    match readCurve s1.motor_b2f_index with
    | none => none
    | some v1 =>
      let s2 := { s1 with motor_b2e_index :=
        if s1.motor_b2e_index > 0 then s1.motor_b2e_index - 1 else 0 }
      match readCurve s2.motor_b2e_index with
      | none => none
      | some v2 => some (s2, [Event.analogWrite motor_b2f v1, Event.analogWrite motor_b2e v2])
  else
    some (s, [Event.analogWrite motor_b2f 0, Event.analogWrite motor_b2e 0])

/-! ## Range sensor (ultrasonic.cpp, main.cpp lines 114-127) -/

/-- The function `microsecondsToCentimeters`: two truncating divisions. -/
def microsecondsToCentimeters (microseconds : Int) : Int :=
  Int.tdiv (Int.tdiv microseconds 29) 2

/-- The function `pingVessel`: the trigger pulse on the ping pin. -/
def pingVessel (ping : Nat) : List Event :=
  [Event.digitalWrite ping LOW, Event.digitalWrite ping HIGH, Event.digitalWrite ping LOW]

/-- The function `getDistance`; `pulse` is what `pulseIn(echo, HIGH, 10000)` returned. -/
def getDistance (ping : Nat) (pulse : Int) : Int × List Event :=
  (microsecondsToCentimeters pulse, pingVessel ping)

/-- The function `getWaterLevelA`; `pulse` is the echo duration on `echo_a`. -/
def getWaterLevelA (pulse : Int) : Int × List Event :=
  let height := vesselHeight - (getDistance common_ping pulse).1
  (if height > 0 then height else 0, (getDistance common_ping pulse).2)

/-- The function `getWaterLevelB`; `pulse` is the echo duration on `echo_b`. -/
def getWaterLevelB (pulse : Int) : Int × List Event :=
  let height := vesselHeight - (getDistance common_ping pulse).1
  (if height > 0 then height else 0, (getDistance common_ping pulse).2)

/-! ## Valves and phases (main.cpp lines 132-179) -/

def solenoidA (state : Int) : List Event := [Event.digitalWrite solenoid_a1 state]

def solenoidB (state : Int) : List Event := [Event.digitalWrite solenoid_b1 state]

/-- The function `inhale` of lines 151-160. -/
def inhale (s : State) : State × List Event :=
  ({ s with raisingA := 1, raisingB := 1 }, solenoidA LOW ++ solenoidB HIGH)

/-- The function `exhale` of lines 169-179. -/
def exhale (s : State) : State × List Event :=
  ({ s with raisingA := -1, raisingB := -1 }, solenoidA HIGH ++ solenoidB LOW)

/-! ## The control cycle (main.cpp lines 182-313) -/

/-- The function `setup`: the LED write and the two pump calls. -/
def setup (s : State) : Option (State × List Event) :=
  match runPumpA 0 s with
  | none => none
  | some (s1, evA) =>
    match runPumpB 0 s1 with
    | none => none
    | some (s2, evB) => some (s2, [Event.digitalWrite led s.ledState] ++ evA ++ evB)

/-- Subtraction of two `unsigned long` values: modulo `2 ^ 32`. -/
def ulongSub (a b : Nat) : Nat :=
  (a % 4294967296 + 4294967296 - b % 4294967296) % 4294967296

/-- The button block of `loop`, lines 224-257. -/
def debounce (inp : Input) (s : State) : State × List Event :=
  let s1 := if inp.reading ≠ s.lastButtonState then
      { s with lastDebounceTime := inp.millis } else s
  if ulongSub inp.millis s1.lastDebounceTime > debounceDelay then
    if inp.reading ≠ s1.buttonState then
      let s2 := { s1 with buttonState := inp.reading }
      if s2.buttonState = HIGH then
        let s3 := { s2 with ledState := if s2.ledState = 0 then 1 else 0 }
        ({ s3 with running := if s3.running ≠ 0 then 0 else 1 },
          [Event.digitalWrite led s3.ledState])
      else (s2, [])
    else (s1, [])
  else (s1, [])

/-- The threshold check on vessel A, lines 262-273. -/
def checkA (heightA : Int) (s : State) : State :=
  if s.raisingA = 1 then
    if heightA ≥ highWaterMark then { s with raisingA := 0 } else s
  else if s.raisingA = -1 then
    if heightA ≤ lowWaterMark then { s with raisingA := 0 } else s
  else s

/-- The threshold check on vessel B, lines 276-287. -/
def checkB (heightB : Int) (s : State) : State :=
  if s.raisingB = 1 then
    if heightB ≥ highWaterMark then { s with raisingB := 0 } else s
  else if s.raisingB = -1 then
    if heightB ≤ lowWaterMark then { s with raisingB := 0 } else s
  else s

/-- The block `if(running) ... else ...` of `loop`, lines 260-302.  The
`else` branch assigns `raisingA` twice and `raisingB` not at all. -/
def cycle (heightA heightB : Int) (s : State) : State × List Event :=
  if s.running ≠ 0 then
    let s2 := checkB heightB (checkA heightA s)
    if s2.raisingA = 0 ∧ s2.raisingB = 0 then
      if heightA > centerWaterMark then exhale s2 else inhale s2
    else (s2, [])
  else
    ({ ({ s with raisingA := 0 } : State) with raisingA := 0 }, [])

/-- One pass of `loop`, lines 208-313. -/
def loop (inp : Input) (s : State) : Option (State × List Event) :=
  let levelA := getWaterLevelA inp.echoA
  let levelB := getWaterLevelB inp.echoB
  let btn := debounce inp s
  let cyc := cycle levelA.1 levelB.1 btn.1
  match runPumpA cyc.1.raisingA cyc.1 with
  | none => none
  | some (s3, evA) =>
    match runPumpB s3.raisingB s3 with
    | none => none
    | some (s4, evB) =>
      some ({ s4 with lastButtonState := inp.reading },
        levelA.2 ++ levelB.2 ++ btn.2 ++ cyc.2 ++ evA ++ evB)

/-! ## Sequences of calls and of passes -/

/-- The states left by successive passes of `loop`, one per input; `none`
as soon as a pass reads outside `motor_curve`. -/
def states : List Input → State → Option (List State)
  | [], _ => some []
  | inp :: rest, s =>
    match loop inp s with
    | none => none
    | some r =>
      match states rest r.1 with
      | none => none
      | some l => some (r.1 :: l)

/-- One call of a pump function with its argument. -/
inductive PumpCall where
  | A (direction : Int)
  | B (direction : Int)
  deriving DecidableEq, Repr

/-- Performing one pump call. -/
def pumpCall : PumpCall → State → Option (State × List Event)
  | PumpCall.A d, s => runPumpA d s
  | PumpCall.B d, s => runPumpB d s

/-- The state and the writes after each call of a sequence of pump calls. -/
def pumpCalls : List PumpCall → State → Option (List (State × List Event))
  | [], _ => some []
  | c :: rest, s =>
    match pumpCall c s with
    | none => none
    | some r =>
      match pumpCalls rest r.1 with
      | none => none
      | some l => some (r :: l)

/-! ## Vocabulary of the statements -/

/-- Every ramp index lies between 0 and `motor_curve_len` = 13, the part of
`motor_curve` the ramp uses. -/
def InTable (s : State) : Prop :=
  (0 ≤ s.motor_a2f_index ∧ s.motor_a2f_index ≤ 13) ∧
  (0 ≤ s.motor_a2e_index ∧ s.motor_a2e_index ≤ 13) ∧
  (0 ≤ s.motor_b2f_index ∧ s.motor_b2f_index ≤ 13) ∧
  (0 ≤ s.motor_b2e_index ∧ s.motor_b2e_index ≤ 13)

instance (s : State) : Decidable (InTable s) := by
  unfold InTable; infer_instance

/-- The index a ramp step leaves behind: up by one below `motor_curve_len`,
down by one above 0, unchanged for direction 0. -/
def stepIndex (direction i : Int) : Int :=
  if direction > 0 then (if i < motor_curve_len then i + 1 else motor_curve_len)
  else if direction < 0 then (if i > 0 then i - 1 else 0)
  else i

/-- The table entry at `i`, 0 outside the table. -/
def curveVal (i : Int) : Nat := motor_curve.getD i.toNat 0

/-- The drive level a ramp step writes. -/
def driveOf (direction i : Int) : Nat :=
  if direction = 0 then 0 else curveVal (stepIndex direction i)

/-- The water level of vessel A sensed in a pass. -/
def levelA (inp : Input) : Int := (getWaterLevelA inp.echoA).1

/-- The water level of vessel B sensed in a pass. -/
def levelB (inp : Input) : Int := (getWaterLevelB inp.echoB).1

/-- The state after the button block and the cycle block of one pass. -/
def decided (inp : Input) (s : State) : State :=
  (cycle (getWaterLevelA inp.echoA).1 (getWaterLevelB inp.echoB).1 (debounce inp s).1).1

/-- The writes of one pass before the pump calls. -/
def decidedWrites (inp : Input) (s : State) : List Event :=
  (getWaterLevelA inp.echoA).2 ++ (getWaterLevelB inp.echoB).2 ++ (debounce inp s).2 ++
    (cycle (getWaterLevelA inp.echoA).1 (getWaterLevelB inp.echoB).1 (debounce inp s).1).2

/-- The state one pass of `loop` leaves, for a state whose indices are in the table. -/
def afterLoop (inp : Input) (s : State) : State :=
  { decided inp s with
    motor_a2f_index := stepIndex (decided inp s).raisingA s.motor_a2f_index,
    motor_a2e_index := stepIndex (decided inp s).raisingA s.motor_a2e_index,
    motor_b2f_index := stepIndex (decided inp s).raisingB s.motor_b2f_index,
    motor_b2e_index := stepIndex (decided inp s).raisingB s.motor_b2e_index,
    lastButtonState := inp.reading }

/-- The four motor writes of one pass. -/
def pumpWrites (inp : Input) (s : State) : List Event :=
  [Event.analogWrite motor_a2f (driveOf (decided inp s).raisingA s.motor_a2f_index),
   Event.analogWrite motor_a2e (driveOf (decided inp s).raisingA s.motor_a2e_index),
   Event.analogWrite motor_b2f (driveOf (decided inp s).raisingB s.motor_b2f_index),
   Event.analogWrite motor_b2e (driveOf (decided inp s).raisingB s.motor_b2e_index)]

/-- A write to one of the two solenoid pins. -/
def isSolenoidWrite : Event → Bool
  | Event.digitalWrite pin _ => pin == solenoid_a1 || pin == solenoid_b1
  | Event.analogWrite _ _ => false

/-- The solenoid writes among a list of writes, in order. -/
def solenoidWrites (ev : List Event) : List Event := ev.filter isSolenoidWrite

/-- The controller is running, once the button has been processed, in every
pass of the sequence. -/
def staysRunning : List Input → State → Bool
  | [], _ => true
  | inp :: rest, s =>
    decide ((debounce inp s).1.running ≠ 0) &&
      match loop inp s with
      | none => false
      | some r => staysRunning rest r.1

/-- Every pass comes at most `debounceDelay` ms after the most recent pass
whose raw reading differed from the reading of the pass before it.  `prev` is
the reading of the pass before the sequence, `lastChange` the time of the most
recent such pass so far, if there was one.  Tick times do not decrease and are
values of the 32-bit millisecond clock. -/
def quietFrom : Int → Option Nat → List Input → Bool
  | _, _, [] => true
  | prev, lastChange, inp :: rest =>
    (match (if inp.reading ≠ prev then some inp.millis else lastChange) with
      | some t => decide (t ≤ inp.millis ∧ inp.millis ≤ t + debounceDelay ∧
          inp.millis < 4294967296)
      | none => false) &&
    quietFrom inp.reading (if inp.reading ≠ prev then some inp.millis else lastChange) rest

/-- The water level as the specification writes it:
`max(vesselHeight - (d / 29) / 2, 0)`, the divisions truncating as in C. -/
def waterLevelFormula (d : Int) : Int :=
  max (vesselHeight - Int.tdiv (Int.tdiv d 29) 2) 0

/-- The value `running = running ? 0 : 1` gives. -/
def toggled (running : Int) : Int := if running ≠ 0 then 0 else 1

/-- The state and the writes of the `k`-th of consecutive raise calls on
pump A that start in `s`. -/
def rampedA (s : State) (k : Nat) : State × List Event :=
  ({ s with motor_a2f_index := min (s.motor_a2f_index + k) 13,
            motor_a2e_index := min (s.motor_a2e_index + k) 13 },
   [Event.analogWrite motor_a2f (curveVal (min (s.motor_a2f_index + k) 13)),
    Event.analogWrite motor_a2e (curveVal (min (s.motor_a2e_index + k) 13))])

/-- The state and the writes of the `k`-th of consecutive raise calls on
pump B that start in `s`. -/
def rampedB (s : State) (k : Nat) : State × List Event :=
  ({ s with motor_b2f_index := min (s.motor_b2f_index + k) 13,
            motor_b2e_index := min (s.motor_b2e_index + k) 13 },
   [Event.analogWrite motor_b2f (curveVal (min (s.motor_b2f_index + k) 13)),
    Event.analogWrite motor_b2e (curveVal (min (s.motor_b2e_index + k) 13))])

/-- The level of a digital pin after a list of writes, `before` being its
level before them: the value of the last `digitalWrite` to the pin. -/
def pinAfter (pin : Nat) (before : Int) (ev : List Event) : Int :=
  ev.foldl (fun cur e =>
    match e with
    | Event.digitalWrite p v => if p = pin then v else cur
    | Event.analogWrite _ _ => cur) before

/-- A changed raw reading is accepted in this pass: the reading is the one of
the pass before, the debounce window has elapsed since the last change, and
the reading differs from the debounced `buttonState`. -/
def accepted (inp : Input) (s : State) : Prop :=
  inp.reading = s.lastButtonState ∧
  ulongSub inp.millis s.lastDebounceTime > debounceDelay ∧
  inp.reading ≠ s.buttonState

instance (inp : Input) (s : State) : Decidable (accepted inp s) := by
  unfold accepted; infer_instance

/-- The state a sequence of pump calls started in `s` ends in. -/
def lastState (s : State) (l : List (State × List Event)) : State :=
  match l.getLast? with
  | some r => r.1
  | none => s

/-- Both directions are -1, 0 or +1, and when neither is 0 they are equal. -/
def Aligned (s : State) : Prop :=
  (s.raisingA = -1 ∨ s.raisingA = 0 ∨ s.raisingA = 1) ∧
  (s.raisingB = -1 ∨ s.raisingB = 0 ∨ s.raisingB = 1) ∧
  (s.raisingA ≠ 0 → s.raisingB ≠ 0 → s.raisingA = s.raisingB)

/-- The forward and the reverse index of each pump are equal. -/
def Paired (s : State) : Prop :=
  s.motor_a2f_index = s.motor_a2e_index ∧ s.motor_b2f_index = s.motor_b2e_index

/-- Two consecutive calls on one pump wrote drive levels to its forward pin
`pinF` and to its reverse pin `pinE` that differ by at most 50 on each pin. -/
def SmoothWrites (pinF pinE : Nat) (r1 r2 : State × List Event) : Prop :=
  ∃ v1 w1 v2 w2 : Nat,
    r1.2 = [Event.analogWrite pinF v1, Event.analogWrite pinE w1] ∧
    r2.2 = [Event.analogWrite pinF v2, Event.analogWrite pinE w2] ∧
    v1 ≤ v2 + 50 ∧ v2 ≤ v1 + 50 ∧ w1 ≤ w2 + 50 ∧ w2 ≤ w1 + 50

/-! ## Lemmas on one call and one pass -/

theorem readCurve_inTable (i : Int) (h0 : 0 ≤ i) (h1 : i ≤ 13) :
    readCurve i = some (curveVal i) := by
  interval_cases i <;> rfl

theorem stepIndex_inTable (d i : Int) (h0 : 0 ≤ i) (h1 : i ≤ 13) :
    0 ≤ stepIndex d i ∧ stepIndex d i ≤ 13 := by
  unfold stepIndex motor_curve_len
  split_ifs <;> omega

theorem runPumpA_eq (d : Int) (s : State) (h : InTable s) :
    runPumpA d s = some
      ({ s with motor_a2f_index := stepIndex d s.motor_a2f_index,
                motor_a2e_index := stepIndex d s.motor_a2e_index },
       [Event.analogWrite motor_a2f (driveOf d s.motor_a2f_index),
        Event.analogWrite motor_a2e (driveOf d s.motor_a2e_index)]) := by
  obtain ⟨⟨hf0, hf1⟩, ⟨he0, he1⟩, -, -⟩ := h
  have hf := stepIndex_inTable d _ hf0 hf1
  have he := stepIndex_inTable d _ he0 he1
  have rf := readCurve_inTable _ hf.1 hf.2
  have re := readCurve_inTable _ he.1 he.2
  unfold runPumpA
  by_cases hp : d > 0
  · have hn : d ≠ 0 := by omega
    simp only [stepIndex, hp, if_true] at rf re
    simp only [hp, if_true, rf, re, driveOf, hn, if_false, stepIndex]
  · by_cases hm : d < 0
    · have hn : d ≠ 0 := by omega
      simp only [stepIndex, hp, hm, if_true, if_false] at rf re
      simp only [hp, hm, if_true, if_false, rf, re, driveOf, hn, stepIndex]
    · have hz : d = 0 := by omega
      subst hz
      simp [driveOf, stepIndex]


theorem runPumpB_eq (d : Int) (s : State) (h : InTable s) :
    runPumpB d s = some
      ({ s with motor_b2f_index := stepIndex d s.motor_b2f_index,
                motor_b2e_index := stepIndex d s.motor_b2e_index },
       [Event.analogWrite motor_b2f (driveOf d s.motor_b2f_index),
        Event.analogWrite motor_b2e (driveOf d s.motor_b2e_index)]) := by
  obtain ⟨-, -, ⟨hf0, hf1⟩, ⟨he0, he1⟩⟩ := h
  have hf := stepIndex_inTable d _ hf0 hf1
  have he := stepIndex_inTable d _ he0 he1
  have rf := readCurve_inTable _ hf.1 hf.2
  have re := readCurve_inTable _ he.1 he.2
  unfold runPumpB
  by_cases hp : d > 0
  · have hn : d ≠ 0 := by omega
    simp only [stepIndex, hp, if_true] at rf re
    simp only [hp, if_true, rf, re, driveOf, hn, if_false, stepIndex]
  · by_cases hm : d < 0
    · have hn : d ≠ 0 := by omega
      simp only [stepIndex, hp, hm, if_true, if_false] at rf re
      simp only [hp, hm, if_true, if_false, rf, re, driveOf, hn, stepIndex]
    · have hz : d = 0 := by omega
      subst hz
      simp [driveOf, stepIndex]

theorem debounce_frame (inp : Input) (s : State) :
    (debounce inp s).1.raisingA = s.raisingA ∧ (debounce inp s).1.raisingB = s.raisingB ∧
    (debounce inp s).1.motor_a2f_index = s.motor_a2f_index ∧
    (debounce inp s).1.motor_a2e_index = s.motor_a2e_index ∧
    (debounce inp s).1.motor_b2f_index = s.motor_b2f_index ∧
    (debounce inp s).1.motor_b2e_index = s.motor_b2e_index ∧
    (debounce inp s).1.lastButtonState = s.lastButtonState := by
  unfold debounce
  simp only []
  split_ifs <;> simp

theorem checkA_frame (h : Int) (s : State) :
    (checkA h s).running = s.running ∧ (checkA h s).raisingB = s.raisingB ∧
    (checkA h s).motor_a2f_index = s.motor_a2f_index ∧
    (checkA h s).motor_a2e_index = s.motor_a2e_index ∧
    (checkA h s).motor_b2f_index = s.motor_b2f_index ∧
    (checkA h s).motor_b2e_index = s.motor_b2e_index ∧
    (checkA h s).ledState = s.ledState ∧ (checkA h s).buttonState = s.buttonState ∧
    (checkA h s).lastButtonState = s.lastButtonState ∧
    (checkA h s).lastDebounceTime = s.lastDebounceTime := by
  unfold checkA
  split_ifs <;> simp

theorem checkB_frame (h : Int) (s : State) :
    (checkB h s).running = s.running ∧ (checkB h s).raisingA = s.raisingA ∧
    (checkB h s).motor_a2f_index = s.motor_a2f_index ∧
    (checkB h s).motor_a2e_index = s.motor_a2e_index ∧
    (checkB h s).motor_b2f_index = s.motor_b2f_index ∧
    (checkB h s).motor_b2e_index = s.motor_b2e_index ∧
    (checkB h s).ledState = s.ledState ∧ (checkB h s).buttonState = s.buttonState ∧
    (checkB h s).lastButtonState = s.lastButtonState ∧
    (checkB h s).lastDebounceTime = s.lastDebounceTime := by
  unfold checkB
  split_ifs <;> simp

theorem cycle_frame (hA hB : Int) (s : State) :
    (cycle hA hB s).1.running = s.running ∧
    (cycle hA hB s).1.motor_a2f_index = s.motor_a2f_index ∧
    (cycle hA hB s).1.motor_a2e_index = s.motor_a2e_index ∧
    (cycle hA hB s).1.motor_b2f_index = s.motor_b2f_index ∧
    (cycle hA hB s).1.motor_b2e_index = s.motor_b2e_index ∧
    (cycle hA hB s).1.ledState = s.ledState ∧ (cycle hA hB s).1.buttonState = s.buttonState ∧
    (cycle hA hB s).1.lastButtonState = s.lastButtonState ∧
    (cycle hA hB s).1.lastDebounceTime = s.lastDebounceTime := by
  have a := checkA_frame hA s
  have b := checkB_frame hB (checkA hA s)
  unfold cycle
  simp only []
  split_ifs <;> simp [inhale, exhale, a, b]

theorem decided_frame (inp : Input) (s : State) :
    (decided inp s).running = (debounce inp s).1.running ∧
    (decided inp s).motor_a2f_index = s.motor_a2f_index ∧
    (decided inp s).motor_a2e_index = s.motor_a2e_index ∧
    (decided inp s).motor_b2f_index = s.motor_b2f_index ∧
    (decided inp s).motor_b2e_index = s.motor_b2e_index ∧
    (decided inp s).ledState = (debounce inp s).1.ledState ∧
    (decided inp s).buttonState = (debounce inp s).1.buttonState ∧
    (decided inp s).lastDebounceTime = (debounce inp s).1.lastDebounceTime := by
  have a := debounce_frame inp s
  have b := cycle_frame (getWaterLevelA inp.echoA).1 (getWaterLevelB inp.echoB).1 (debounce inp s).1
  unfold decided
  simp [a, b]

theorem loop_eq (inp : Input) (s : State) (h : InTable s) :
    loop inp s = some (afterLoop inp s, decidedWrites inp s ++ pumpWrites inp s) := by
  have fr := decided_frame inp s
  obtain ⟨_, f1, f2, f3, f4, _⟩ := fr
  have hd : InTable (decided inp s) := by
    unfold InTable; rw [f1, f2, f3, f4]; exact h
  have hA := runPumpA_eq (decided inp s).raisingA (decided inp s) hd
  have hd2 : InTable { decided inp s with
      motor_a2f_index := stepIndex (decided inp s).raisingA (decided inp s).motor_a2f_index,
      motor_a2e_index := stepIndex (decided inp s).raisingA (decided inp s).motor_a2e_index } := by
    obtain ⟨⟨a0, a1⟩, ⟨b0, b1⟩, c, d⟩ := hd
    exact ⟨stepIndex_inTable _ _ a0 a1, stepIndex_inTable _ _ b0 b1, c, d⟩
  have hB := runPumpB_eq (decided inp s).raisingB _ hd2
  unfold loop
  simp only []
  change (match runPumpA (decided inp s).raisingA (decided inp s) with
    | none => none
    | some (s3, evA) => _) = _
  rw [hA]
  simp only []
  rw [hB]
  simp only [decided] at f1 f2 f3 f4
  simp [afterLoop, decidedWrites, pumpWrites, decided, f1, f2, f3, f4]

theorem afterLoop_inTable (inp : Input) (s : State) (h : InTable s) :
    InTable (afterLoop inp s) := by
  obtain ⟨⟨a0, a1⟩, ⟨b0, b1⟩, ⟨c0, c1⟩, ⟨d0, d1⟩⟩ := h
  exact ⟨stepIndex_inTable _ _ a0 a1, stepIndex_inTable _ _ b0 b1,
    stepIndex_inTable _ _ c0 c1, stepIndex_inTable _ _ d0 d1⟩

/-! ## Lemmas on the cycle block -/

theorem marks_eq : highWaterMark = 16 ∧ lowWaterMark = 4 ∧ centerWaterMark = 10 := by
  decide

theorem solenoidWrites_loop (inp : Input) (s : State) :
    solenoidWrites (decidedWrites inp s ++ pumpWrites inp s) =
      (cycle (getWaterLevelA inp.echoA).1 (getWaterLevelB inp.echoB).1 (debounce inp s).1).2 := by
  have hc : ∀ (a b : Int) (t : State), solenoidWrites (cycle a b t).2 = (cycle a b t).2 := by
    intro a b t
    unfold cycle
    simp only []
    split_ifs <;> rfl
  have hd : solenoidWrites (debounce inp s).2 = [] := by
    unfold debounce
    simp only []
    split_ifs <;> rfl
  have hp : solenoidWrites (pumpWrites inp s) = [] := rfl
  have ha : solenoidWrites (getWaterLevelA inp.echoA).2 = [] := rfl
  have hb : solenoidWrites (getWaterLevelB inp.echoB).2 = [] := rfl
  unfold solenoidWrites at *
  unfold decidedWrites
  simp only [List.filter_append, ha, hb, hd, hp, hc, List.nil_append, List.append_nil]

theorem cycle_running (hA hB : Int) (s : State) (hr : s.running ≠ 0) :
    cycle hA hB s =
      if (checkB hB (checkA hA s)).raisingA = 0 ∧ (checkB hB (checkA hA s)).raisingB = 0 then
        (if hA > centerWaterMark then exhale (checkB hB (checkA hA s))
         else inhale (checkB hB (checkA hA s)))
      else (checkB hB (checkA hA s), []) := by
  unfold cycle
  rw [if_pos hr]

theorem cycle_stopped (hA hB : Int) (s : State) (hr : s.running = 0) :
    cycle hA hB s = ({ s with raisingA := 0 }, []) := by
  unfold cycle
  rw [if_neg (by simpa using hr)]

theorem checkA_raisingA (h : Int) (s : State) :
    (checkA h s).raisingA =
      if s.raisingA = 1 then (if h ≥ highWaterMark then 0 else 1)
      else if s.raisingA = -1 then (if h ≤ lowWaterMark then 0 else -1)
      else s.raisingA := by
  unfold checkA
  split_ifs <;> simp_all

theorem checkB_raisingB (h : Int) (s : State) :
    (checkB h s).raisingB =
      if s.raisingB = 1 then (if h ≥ highWaterMark then 0 else 1)
      else if s.raisingB = -1 then (if h ≤ lowWaterMark then 0 else -1)
      else s.raisingB := by
  unfold checkB
  split_ifs <;> simp_all

theorem checked_raising (inp : Input) (s : State) :
    (checkB (levelB inp) (checkA (levelA inp) (debounce inp s).1)).raisingA =
      (checkA (levelA inp) s).raisingA ∧
    (checkB (levelB inp) (checkA (levelA inp) (debounce inp s).1)).raisingB =
      (checkB (levelB inp) s).raisingB := by
  obtain ⟨fa, fb, -⟩ := debounce_frame inp s
  constructor
  · rw [(checkB_frame _ _).2.1, checkA_raisingA, checkA_raisingA, fa]
  · rw [checkB_raisingB, checkB_raisingB, (checkA_frame _ _).2.1, fb]

/-- The directions a running pass leaves: the threshold checks, then the
phase decision when both checked directions are 0. -/
theorem decided_running (inp : Input) (s : State) (hrun : (debounce inp s).1.running ≠ 0) :
    (decided inp s).raisingA =
      (if (checkA (levelA inp) s).raisingA = 0 ∧ (checkB (levelB inp) s).raisingB = 0 then
        (if levelA inp > centerWaterMark then -1 else 1)
       else (checkA (levelA inp) s).raisingA) ∧
    (decided inp s).raisingB =
      (if (checkA (levelA inp) s).raisingA = 0 ∧ (checkB (levelB inp) s).raisingB = 0 then
        (if levelA inp > centerWaterMark then -1 else 1)
       else (checkB (levelB inp) s).raisingB) := by
  obtain ⟨ca, cb⟩ := checked_raising inp s
  unfold decided
  rw [cycle_running _ _ _ hrun]
  simp only [levelA, levelB] at ca cb ⊢
  rw [ca, cb]
  split_ifs <;> simp [exhale, inhale, ca, cb]

/-- The directions a stopped pass leaves: `raisingA` is cleared, `raisingB`
is kept. -/
theorem decided_stopped (inp : Input) (s : State) (hstop : (debounce inp s).1.running = 0) :
    (decided inp s).raisingA = 0 ∧ (decided inp s).raisingB = s.raisingB := by
  obtain ⟨-, fb, -⟩ := debounce_frame inp s
  unfold decided
  rw [cycle_stopped _ _ _ hstop]
  exact ⟨rfl, fb⟩

/-! ## Lemmas on sequences of passes -/

theorem states_cons (inp : Input) (rest : List Input) (s : State) (h : InTable s) :
    states (inp :: rest) s =
      match states rest (afterLoop inp s) with
      | none => none
      | some l => some (afterLoop inp s :: l) := by
  simp only [states, loop_eq inp s h]

theorem states_cons_some (inp : Input) (rest : List Input) (s : State) (l : List State)
    (h : InTable s) (hl : states rest (afterLoop inp s) = some l) :
    states (inp :: rest) s = some (afterLoop inp s :: l) := by
  rw [states_cons inp rest s h, hl]

theorem staysRunning_cons (inp : Input) (rest : List Input) (s : State) (h : InTable s) :
    staysRunning (inp :: rest) s = true ↔
      (debounce inp s).1.running ≠ 0 ∧ staysRunning rest (afterLoop inp s) = true := by
  simp only [staysRunning, loop_eq inp s h, Bool.and_eq_true, decide_eq_true_eq]

/-- From a stopped state the controller runs after the button block only
through an accepted press: `buttonState` has just become HIGH and `running`
is 1. -/
theorem debounce_start (inp : Input) (s : State) (hstop : s.running = 0)
    (hrun : (debounce inp s).1.running ≠ 0) :
    (debounce inp s).1.running = 1 ∧ (debounce inp s).1.buttonState = HIGH ∧
      s.buttonState ≠ HIGH := by
  unfold debounce at hrun ⊢
  simp only [] at hrun ⊢
  split_ifs at hrun ⊢ <;> simp_all <;> exact fun h => by simp_all

theorem afterLoop_running (inp : Input) (s : State) :
    (afterLoop inp s).running = (debounce inp s).1.running :=
  (decided_frame inp s).1

/-- A running pass that starts from rest with vessel A at most at the centre
mark starts Inhale. -/
theorem start_step (inp : Input) (s : State) (hrun : (debounce inp s).1.running ≠ 0)
    (hA : s.raisingA = 0) (hB : s.raisingB = 0) (hl : levelA inp ≤ 10) :
    (afterLoop inp s).raisingA = 1 ∧ (afterLoop inp s).raisingB = 1 := by
  obtain ⟨hh, hlo, hc⟩ := marks_eq
  obtain ⟨da, db⟩ := decided_running inp s hrun
  have ka := checkA_raisingA (levelA inp) s
  have kb := checkB_raisingB (levelB inp) s
  rw [hA] at ka
  rw [hB] at kb
  simp only [show ¬ ((0 : Int) = 1) by decide, show ¬ ((0 : Int) = -1) by decide, if_false] at ka kb
  have ea : (afterLoop inp s).raisingA = (decided inp s).raisingA := rfl
  have eb : (afterLoop inp s).raisingB = (decided inp s).raisingB := rfl
  constructor
  · rw [ea, da, if_pos ⟨ka, kb⟩, hc, if_neg (by omega)]
  · rw [eb, db, if_pos ⟨ka, kb⟩, hc, if_neg (by omega)]

/-- The threshold check on a vessel B that is filling or stopped. -/
theorem checkB_filling (h : Int) (s : State) (hb : s.raisingB = 1 ∨ s.raisingB = 0) :
    (checkB h s).raisingB = if s.raisingB = 1 ∧ h < 16 then 1 else 0 := by
  rw [checkB_raisingB, marks_eq.1, marks_eq.2.1]
  rcases hb with hb | hb
  · simp only [hb, if_true, true_and]
    split_ifs <;> first | rfl | omega
  · simp [hb]

/-- A running pass with vessel A filling below the high mark keeps A filling;
vessel B keeps filling exactly when it was filling and is below the mark. -/
theorem fill_step (inp : Input) (s : State) (hrun : (debounce inp s).1.running ≠ 0)
    (hA : s.raisingA = 1) (hl : levelA inp < 16) (hb : s.raisingB = 1 ∨ s.raisingB = 0) :
    (afterLoop inp s).raisingA = 1 ∧
    ((afterLoop inp s).raisingB = 1 ∨ (afterLoop inp s).raisingB = 0) ∧
    ((afterLoop inp s).raisingB = 1 ↔ s.raisingB = 1 ∧ levelB inp < 16) := by
  obtain ⟨hh, hlo, hc⟩ := marks_eq
  obtain ⟨da, db⟩ := decided_running inp s hrun
  have ka := checkA_raisingA (levelA inp) s
  have kb := checkB_filling (levelB inp) s hb
  rw [hh, hlo] at ka
  rw [if_pos hA, if_neg (by omega)] at ka
  have ea : (afterLoop inp s).raisingA = (decided inp s).raisingA := rfl
  have eb : (afterLoop inp s).raisingB = (decided inp s).raisingB := rfl
  have hn : ¬ ((checkA (levelA inp) s).raisingA = 0 ∧ (checkB (levelB inp) s).raisingB = 0) := by
    rw [ka]; simp
  refine ⟨?_, ?_, ?_⟩
  · rw [ea, da, if_neg hn, ka]
  · rw [eb, db, if_neg hn, kb]
    split_ifs <;> simp
  · rw [eb, db, if_neg hn, kb]
    split_ifs with h <;> simp [h]

/-- A running pass with vessel A filling at level 16 stops A; when vessel B
is or becomes stopped as well, Exhale starts in the same pass. -/
theorem fill_last (inp : Input) (s : State) (hrun : (debounce inp s).1.running ≠ 0)
    (hA : s.raisingA = 1) (hl : levelA inp = 16) (hb : s.raisingB = 1 ∨ s.raisingB = 0) :
    (afterLoop inp s).raisingA = if s.raisingB = 1 ∧ levelB inp < 16 then 0 else -1 := by
  obtain ⟨hh, hlo, hc⟩ := marks_eq
  obtain ⟨da, db⟩ := decided_running inp s hrun
  have ka := checkA_raisingA (levelA inp) s
  have kb := checkB_filling (levelB inp) s hb
  rw [hh, hlo] at ka
  rw [if_pos hA, if_pos (by omega)] at ka
  have ea : (afterLoop inp s).raisingA = (decided inp s).raisingA := rfl
  rw [ea, da, ka, kb, hc, hl]
  by_cases h : s.raisingB = 1 ∧ levelB inp < 16
  · simp [h]
  · simp [h]

/-! ## Lemmas on the button block -/

/-- A pass whose reading differs from the previous one only restarts the
debounce timer. -/
theorem debounce_change (inp : Input) (s : State) (hc : inp.reading ≠ s.lastButtonState) :
    debounce inp s = ({ s with lastDebounceTime := inp.millis }, []) := by
  have h0 : ¬ (ulongSub inp.millis inp.millis > debounceDelay) := by
    unfold ulongSub debounceDelay; omega
  unfold debounce
  simp only [hc, ne_eq, not_false_eq_true, if_true, h0, if_false]

/-- A pass with an unchanged reading inside the debounce window does nothing. -/
theorem debounce_hold (inp : Input) (s : State) (hc : inp.reading = s.lastButtonState)
    (h1 : s.lastDebounceTime ≤ inp.millis) (h2 : inp.millis ≤ s.lastDebounceTime + 150)
    (h3 : inp.millis < 4294967296) :
    debounce inp s = (s, []) := by
  have h0 : ¬ (ulongSub inp.millis s.lastDebounceTime > debounceDelay) := by
    unfold ulongSub debounceDelay; omega
  unfold debounce
  simp only [hc, ne_eq, not_true_eq_false, if_false, h0]

/-- A pass with an unchanged HIGH reading after the window, the debounced
state not yet HIGH: the press is accepted. -/
theorem debounce_fire (inp : Input) (s : State) (hc : inp.reading = s.lastButtonState)
    (hh : inp.reading = HIGH) (hb : s.buttonState ≠ HIGH)
    (h1 : s.lastDebounceTime + 151 ≤ inp.millis) (h3 : inp.millis < 4294967296) :
    debounce inp s =
      ({ s with buttonState := HIGH, ledState := if s.ledState = 0 then 1 else 0,
                running := toggled s.running },
       [Event.digitalWrite led (if s.ledState = 0 then 1 else 0)]) := by
  have h0 : ulongSub inp.millis s.lastDebounceTime > debounceDelay := by
    unfold ulongSub debounceDelay; omega
  have hne : inp.reading ≠ s.buttonState := by rw [hh]; exact fun h => hb h.symm
  unfold debounce
  simp only [hc, ne_eq, not_true_eq_false, if_false, h0, if_true]
  rw [← hc]
  simp only [hne, not_false_eq_true, if_true, hh, toggled, ne_eq]
  rw [if_pos (fun h => hb h.symm)]

/-- A pass whose reading equals both the previous reading and the debounced
state does nothing, whatever the time. -/
theorem debounce_stable (inp : Input) (s : State) (hc : inp.reading = s.lastButtonState)
    (hb : inp.reading = s.buttonState) :
    debounce inp s = (s, []) := by
  unfold debounce
  simp only [hc, ne_eq, not_true_eq_false, if_false]
  rw [← hc]
  simp only [hb, not_true_eq_false, if_false, ite_self]

/-- The button variables after one pass are those the button block leaves,
with the reading saved in `lastButtonState`. -/
theorem afterLoop_button (inp : Input) (s : State) :
    (afterLoop inp s).running = (debounce inp s).1.running ∧
    (afterLoop inp s).ledState = (debounce inp s).1.ledState ∧
    (afterLoop inp s).buttonState = (debounce inp s).1.buttonState ∧
    (afterLoop inp s).lastDebounceTime = (debounce inp s).1.lastDebounceTime ∧
    (afterLoop inp s).lastButtonState = inp.reading := by
  obtain ⟨h1, -, -, -, -, h2, h3, h4⟩ := decided_frame inp s
  exact ⟨h1, h2, h3, h4, rfl⟩

/-! ## The claims -/

/-- C1, evaluated on the code where it fails.  From the initial state the
button is pressed (accepted at 151 ms: the controller runs and starts Inhale),
released, and pressed again (accepted at 700 ms: the controller stops).  In
that last pass `running` is 0 after the button block, yet `raisingB` is still
1 after the pass and `runPumpB` ramps on: it writes `motor_curve[5] = 78` to
both windings of pump B instead of 0. -/
theorem stop_pass_leaves_pump_B_ramping :
    (states [⟨580, 580, 1, 0⟩, ⟨580, 580, 1, 151⟩, ⟨580, 580, 0, 200⟩, ⟨580, 580, 0, 400⟩,
        ⟨580, 580, 1, 500⟩] initState).map List.getLast? =
      some (some ⟨1, 1, 1, 4, 4, 4, 4, 1, 0, 1, 500⟩) ∧
    (debounce ⟨580, 580, 1, 700⟩ ⟨1, 1, 1, 4, 4, 4, 4, 1, 0, 1, 500⟩).1.running = 0 ∧
    loop ⟨580, 580, 1, 700⟩ ⟨1, 1, 1, 4, 4, 4, 4, 1, 0, 1, 500⟩ =
      some (⟨0, 0, 1, 4, 4, 5, 5, 0, 1, 1, 500⟩,
        pingVessel common_ping ++ pingVessel common_ping ++
        [Event.digitalWrite led 0,
         Event.analogWrite motor_a2f 0, Event.analogWrite motor_a2e 0,
         Event.analogWrite motor_b2f 78, Event.analogWrite motor_b2e 78]) := by
  decide

/-- C2 as stated fails: thirteen raise calls on pump A from the initial
state leave `motor_a2f_index` at 13, which is above `motor_curve_len - 1`. -/
theorem ramp_index_reaches_motor_curve_len :
    ∃ l r, pumpCalls (List.replicate 13 (PumpCall.A 1)) initState = some l ∧
      l.getLast? = some r ∧ r.1.motor_a2f_index = 13 ∧
      ¬ (r.1.motor_a2f_index ≤ motor_curve_len - 1) := by
  refine ⟨_, _, rfl, rfl, ?_, ?_⟩ <;> decide

theorem pumpCall_inTable (c : PumpCall) (s : State) (h : InTable s) :
    ∃ r, pumpCall c s = some r ∧ InTable r.1 := by
  obtain ⟨⟨a0, a1⟩, ⟨b0, b1⟩, ⟨c0, c1⟩, ⟨d0, d1⟩⟩ := h
  cases c with
  | A d =>
    exact ⟨_, runPumpA_eq d s ⟨⟨a0, a1⟩, ⟨b0, b1⟩, ⟨c0, c1⟩, ⟨d0, d1⟩⟩,
      stepIndex_inTable _ _ a0 a1, stepIndex_inTable _ _ b0 b1, ⟨c0, c1⟩, ⟨d0, d1⟩⟩
  | B d =>
    exact ⟨_, runPumpB_eq d s ⟨⟨a0, a1⟩, ⟨b0, b1⟩, ⟨c0, c1⟩, ⟨d0, d1⟩⟩,
      ⟨a0, a1⟩, ⟨b0, b1⟩, stepIndex_inTable _ _ c0 c1, stepIndex_inTable _ _ d0 d1⟩

theorem pumpCalls_inTable (calls : List PumpCall) :
    ∀ s : State, InTable s →
      ∃ l, pumpCalls calls s = some l ∧ l.length = calls.length ∧ ∀ r ∈ l, InTable r.1 := by
  induction calls with
  | nil => intro s _; exact ⟨[], rfl, rfl, by simp⟩
  | cons c rest ih =>
    intro s h
    obtain ⟨r, hr, hin⟩ := pumpCall_inTable c s h
    obtain ⟨l, hl, hlen, hall⟩ := ih r.1 hin
    refine ⟨r :: l, ?_, by simp [hlen], ?_⟩
    · simp only [pumpCalls, hr, hl]
    · intro x hx
      rcases List.mem_cons.mp hx with rfl | hx
      · exact hin
      · exact hall x hx

/-- C2, amended: for every finite sequence of `runPumpA` / `runPumpB` calls
with any directions, started in the initial state, every call returns and
after every call each of the four ramp indices lies in
`[0, motor_curve_len]` = `[0, 13]`. -/
theorem ramp_indices_within_motor_curve_len (calls : List PumpCall) :
    ∃ l, pumpCalls calls initState = some l ∧ l.length = calls.length ∧
      ∀ r ∈ l,
        (0 ≤ r.1.motor_a2f_index ∧ r.1.motor_a2f_index ≤ motor_curve_len) ∧
        (0 ≤ r.1.motor_a2e_index ∧ r.1.motor_a2e_index ≤ motor_curve_len) ∧
        (0 ≤ r.1.motor_b2f_index ∧ r.1.motor_b2f_index ≤ motor_curve_len) ∧
        (0 ≤ r.1.motor_b2e_index ∧ r.1.motor_b2e_index ≤ motor_curve_len) :=
  pumpCalls_inTable calls initState (by decide)

/-- C3: in a pass where the controller is running once the button has been
processed and both vessel directions are 0 at the start, the pass ends in
Exhale (both directions -1, solenoid A written HIGH, solenoid B written LOW)
when vessel A's level is above `centerWaterMark` = 10, and in Inhale (both
directions +1, solenoid A written LOW, solenoid B written HIGH) otherwise,
level 10 included; vessel B's level plays no part. -/
theorem phase_decision (inp : Input) (s : State) (ht : InTable s)
    (hrun : (debounce inp s).1.running ≠ 0) (hA : s.raisingA = 0) (hB : s.raisingB = 0) :
    centerWaterMark = 10 ∧
    ∃ s1 ev, loop inp s = some (s1, ev) ∧
      (levelA inp > centerWaterMark →
        s1.raisingA = -1 ∧ s1.raisingB = -1 ∧
        solenoidWrites ev =
          [Event.digitalWrite solenoid_a1 HIGH, Event.digitalWrite solenoid_b1 LOW]) ∧
      (levelA inp ≤ centerWaterMark →
        s1.raisingA = 1 ∧ s1.raisingB = 1 ∧
        solenoidWrites ev =
          [Event.digitalWrite solenoid_a1 LOW, Event.digitalWrite solenoid_b1 HIGH]) := by
  refine ⟨marks_eq.2.2, afterLoop inp s, _, loop_eq inp s ht, ?_, ?_⟩
  all_goals
    intro hl
    obtain ⟨fa, fb, -⟩ := debounce_frame inp s
    rw [solenoidWrites_loop]
    simp only [afterLoop, decided, levelA] at hl ⊢
    have ca : (checkB (getWaterLevelB inp.echoB).1
        (checkA (getWaterLevelA inp.echoA).1 (debounce inp s).1)).raisingA = 0 := by
      simp [checkA, checkB, fa, fb, hA, hB]
    have cb : (checkB (getWaterLevelB inp.echoB).1
        (checkA (getWaterLevelA inp.echoA).1 (debounce inp s).1)).raisingB = 0 := by
      simp [checkA, checkB, fa, fb, hA, hB]
    rw [cycle_running _ _ _ hrun, if_pos ⟨ca, cb⟩]
  · rw [if_pos hl]
    simp [exhale, solenoidA, solenoidB]
  · rw [if_neg (by omega)]
    simp [inhale, solenoidA, solenoidB]

/-- Witness of C3: a running state with both directions 0 and vessel A at
level 10 (echo 580 us) starts Inhale. -/
theorem phase_decision_witness :
    InTable ⟨1, 0, 0, 0, 0, 0, 0, 1, 1, 1, 0⟩ ∧
    (debounce ⟨580, 0, 1, 1000⟩ ⟨1, 0, 0, 0, 0, 0, 0, 1, 1, 1, 0⟩).1.running ≠ 0 ∧
    ∃ s1 ev, loop ⟨580, 0, 1, 1000⟩ ⟨1, 0, 0, 0, 0, 0, 0, 1, 1, 1, 0⟩ = some (s1, ev) ∧
      s1.raisingA = 1 ∧ s1.raisingB = 1 ∧
      solenoidWrites ev =
        [Event.digitalWrite solenoid_a1 LOW, Event.digitalWrite solenoid_b1 HIGH] := by
  obtain ⟨-, s1, ev, h, -, h2⟩ :=
    phase_decision ⟨580, 0, 1, 1000⟩ ⟨1, 0, 0, 0, 0, 0, 0, 1, 1, 1, 0⟩
      (by decide) (by decide) rfl rfl
  exact ⟨by decide, by decide, s1, ev, h, h2 (by decide)⟩


/-- C4 as stated fails for vessel B.  From the initial state the controller
is started (Inhale), vessel A reaches 16 and stops, then vessel A reads 10
while vessel B reads 16: vessel B starts that pass with direction +1 at a
level >= `highWaterMark`, and its direction after the pass is +1 again,
because the phase decision of the same pass restarts Inhale. -/
theorem vessel_B_still_filling_at_high_mark :
    (states [⟨580, 580, 1, 0⟩, ⟨580, 580, 1, 151⟩, ⟨232, 580, 1, 200⟩] initState).map
        List.getLast? = some (some ⟨1, 0, 1, 1, 1, 2, 2, 1, 1, 1, 0⟩) ∧
    (debounce ⟨580, 232, 1, 250⟩ ⟨1, 0, 1, 1, 1, 2, 2, 1, 1, 1, 0⟩).1.running ≠ 0 ∧
    levelB ⟨580, 232, 1, 250⟩ ≥ highWaterMark ∧
    (∃ s1 ev, loop ⟨580, 232, 1, 250⟩ ⟨1, 0, 1, 1, 1, 2, 2, 1, 1, 1, 0⟩ = some (s1, ev) ∧
      s1.raisingB = 1) := by
  refine ⟨by decide, by decide, by decide, _, _, rfl, by decide⟩

/-- C4, amended.  In a pass where the controller is running once the button
has been processed: vessel A's direction +1 is kept below `highWaterMark` = 16
and is no longer +1 from 16 on, and its direction -1 is kept above
`lowWaterMark` = 4 and is no longer -1 from 4 down.  Vessel B's direction +1
is kept below 16; from 16 on it is +1 after the pass exactly when vessel A's
direction is 0 after A's own check and A's level is at most
`centerWaterMark`, the case in which the phase decision of the same pass
starts Inhale.  Vessel B's direction -1 is kept above 4; from 4 down it is -1
after the pass exactly when vessel A's direction is 0 after A's own check and
A's level is above `centerWaterMark` (Exhale starts). -/
theorem threshold_stop (inp : Input) (s : State) (ht : InTable s)
    (hrun : (debounce inp s).1.running ≠ 0) :
    highWaterMark = 16 ∧ lowWaterMark = 4 ∧
    ∃ s1 ev, loop inp s = some (s1, ev) ∧
      (s.raisingA = 1 →
        (levelA inp < highWaterMark → s1.raisingA = 1) ∧
        (levelA inp ≥ highWaterMark → s1.raisingA ≠ 1)) ∧
      (s.raisingA = -1 →
        (levelA inp > lowWaterMark → s1.raisingA = -1) ∧
        (levelA inp ≤ lowWaterMark → s1.raisingA ≠ -1)) ∧
      (s.raisingB = 1 →
        (levelB inp < highWaterMark → s1.raisingB = 1) ∧
        (levelB inp ≥ highWaterMark →
          (s1.raisingB = 1 ↔
            (checkA (levelA inp) s).raisingA = 0 ∧ levelA inp ≤ centerWaterMark))) ∧
      (s.raisingB = -1 →
        (levelB inp > lowWaterMark → s1.raisingB = -1) ∧
        (levelB inp ≤ lowWaterMark →
          (s1.raisingB = -1 ↔
            (checkA (levelA inp) s).raisingA = 0 ∧ levelA inp > centerWaterMark))) := by
  obtain ⟨hh, hlo, hc⟩ := marks_eq
  obtain ⟨da, db⟩ := decided_running inp s hrun
  have ea : (afterLoop inp s).raisingA = (decided inp s).raisingA := rfl
  have eb : (afterLoop inp s).raisingB = (decided inp s).raisingB := rfl
  have ka := checkA_raisingA (levelA inp) s
  have kb := checkB_raisingB (levelB inp) s
  rw [hh, hlo] at ka kb
  refine ⟨hh, hlo, afterLoop inp s, _, loop_eq inp s ht, ?_, ?_, ?_, ?_⟩
  · intro h1
    simp only [ea, da, hh, hlo, hc]
    rw [if_pos h1] at ka
    constructor
    · intro hl
      rw [if_neg (by omega)] at ka
      rw [ka]; simp
    · intro hl
      rw [if_pos hl] at ka
      rw [ka]
      split_ifs <;> omega
  · intro h1
    simp only [ea, da, hh, hlo, hc]
    rw [if_neg (by omega), if_pos h1] at ka
    constructor
    · intro hl
      rw [if_neg (by omega)] at ka
      rw [ka]; simp
    · intro hl
      rw [if_pos hl] at ka
      rw [ka]
      split_ifs <;> omega
  · intro h1
    simp only [eb, db, hh, hlo, hc]
    rw [if_pos h1] at kb
    constructor
    · intro hl
      rw [if_neg (by omega)] at kb
      rw [kb]; simp
    · intro hl
      rw [if_pos hl] at kb
      rw [kb]
      by_cases hca : (checkA (levelA inp) s).raisingA = 0
      · simp only [hca, and_self, if_true, true_and]
        split_ifs <;> simp <;> omega
      · simp [hca]
  · intro h1
    simp only [eb, db, hh, hlo, hc]
    rw [if_neg (by omega), if_pos h1] at kb
    constructor
    · intro hl
      rw [if_neg (by omega)] at kb
      rw [kb]; simp
    · intro hl
      rw [if_pos hl] at kb
      rw [kb]
      by_cases hca : (checkA (levelA inp) s).raisingA = 0
      · simp only [hca, and_self, if_true, true_and]
        split_ifs <;> simp <;> omega
      · simp [hca]

/-- Witness of C4: a running state with both vessels filling, vessel A at
level 16 and vessel B at level 10. -/
theorem threshold_stop_witness :
    InTable ⟨1, 1, 1, 3, 3, 3, 3, 1, 1, 1, 0⟩ ∧
    (debounce ⟨232, 580, 1, 1000⟩ ⟨1, 1, 1, 3, 3, 3, 3, 1, 1, 1, 0⟩).1.running ≠ 0 ∧
    ∃ s1 ev, loop ⟨232, 580, 1, 1000⟩ ⟨1, 1, 1, 3, 3, 3, 3, 1, 1, 1, 0⟩ = some (s1, ev) ∧
      s1.raisingA ≠ 1 ∧ s1.raisingB = 1 := by
  obtain ⟨-, -, s1, ev, h, hA, -, hB, -⟩ :=
    threshold_stop ⟨232, 580, 1, 1000⟩ ⟨1, 1, 1, 3, 3, 3, 3, 1, 1, 1, 0⟩
      (by decide) (by decide)
  exact ⟨by decide, by decide, s1, ev, h, (hA rfl).2 (by decide), (hB rfl).1 (by decide)⟩


/-- C5 as stated fails: in the scenario, with vessel B reporting the same
levels as vessel A, the pass in which vessel A reads 16 leaves `raisingA` at
-1, not 0: both vessels stop in that pass and Exhale starts at once.  The
list gives `raisingA` after each pass; the controller runs from the second
pass on and vessel A reads 10, 10, 10, 11, 12, 13, 14, 15, 16. -/
theorem fill_scenario_ends_in_exhale :
    (states [⟨580, 580, 1, 0⟩, ⟨580, 580, 1, 151⟩, ⟨580, 580, 1, 200⟩, ⟨522, 522, 1, 250⟩,
        ⟨464, 464, 1, 300⟩, ⟨406, 406, 1, 350⟩, ⟨348, 348, 1, 400⟩, ⟨290, 290, 1, 450⟩,
        ⟨232, 232, 1, 500⟩] initState).map (List.map (fun t => (t.running, t.raisingA))) =
      some [(0, 0), (1, 1), (1, 1), (1, 1), (1, 1), (1, 1), (1, 1), (1, 1), (1, -1)] ∧
    levelA ⟨232, 232, 1, 500⟩ = 16 := by
  decide

/-- C5, amended.  From a Stopped state with both directions 0, as the
initial one is, a pass `i0` in which a button press is accepted with vessel A
at level 10 leaves the controller running in Inhale (both directions +1).
Over the next seven running passes, in which vessel A reads 10, 11, ..., 16,
`raisingA` is +1 after every pass with level at most 15; after the pass with
level 16 it is 0 when vessel B read below `highWaterMark` = 16 in all seven
passes, and -1 otherwise (vessel B is then stopped too and Exhale starts in
that same pass). -/
theorem end_to_end_fill (s : State) (i0 i1 i2 i3 i4 i5 i6 i7 : Input)
    (ht : InTable s) (hstop : s.running = 0) (hA : s.raisingA = 0) (hB : s.raisingB = 0)
    (hrun : staysRunning [i0, i1, i2, i3, i4, i5, i6, i7] s = true)
    (h0 : levelA i0 = 10) (h1 : levelA i1 = 10) (h2 : levelA i2 = 11)
    (h3 : levelA i3 = 12) (h4 : levelA i4 = 13) (h5 : levelA i5 = 14)
    (h6 : levelA i6 = 15) (h7 : levelA i7 = 16) :
    highWaterMark = 16 ∧ lowWaterMark = 4 ∧ centerWaterMark = 10 ∧
    ∃ t0 t1 t2 t3 t4 t5 t6 t7,
      states [i0, i1, i2, i3, i4, i5, i6, i7] s = some [t0, t1, t2, t3, t4, t5, t6, t7] ∧
      t0.running = 1 ∧ t0.buttonState = HIGH ∧ t0.raisingA = 1 ∧ t0.raisingB = 1 ∧
      t1.raisingA = 1 ∧ t2.raisingA = 1 ∧ t3.raisingA = 1 ∧ t4.raisingA = 1 ∧
      t5.raisingA = 1 ∧ t6.raisingA = 1 ∧
      t7.raisingA =
        if levelB i1 < 16 ∧ levelB i2 < 16 ∧ levelB i3 < 16 ∧ levelB i4 < 16 ∧
            levelB i5 < 16 ∧ levelB i6 < 16 ∧ levelB i7 < 16 then 0 else -1 := by
  have q0 := afterLoop_inTable i0 s ht
  have q1 := afterLoop_inTable i1 _ q0
  have q2 := afterLoop_inTable i2 _ q1
  have q3 := afterLoop_inTable i3 _ q2
  have q4 := afterLoop_inTable i4 _ q3
  have q5 := afterLoop_inTable i5 _ q4
  have q6 := afterLoop_inTable i6 _ q5
  rw [staysRunning_cons _ _ _ ht, staysRunning_cons _ _ _ q0, staysRunning_cons _ _ _ q1,
    staysRunning_cons _ _ _ q2, staysRunning_cons _ _ _ q3, staysRunning_cons _ _ _ q4,
    staysRunning_cons _ _ _ q5, staysRunning_cons _ _ _ q6] at hrun
  obtain ⟨r0, r1, r2, r3, r4, r5, r6, r7, -⟩ := hrun
  obtain ⟨a0, b0⟩ := start_step i0 s r0 hA hB (by omega)
  obtain ⟨a1, c1, b1⟩ := fill_step i1 _ r1 a0 (by omega) (Or.inl b0)
  obtain ⟨a2, c2, b2⟩ := fill_step i2 _ r2 a1 (by omega) c1
  obtain ⟨a3, c3, b3⟩ := fill_step i3 _ r3 a2 (by omega) c2
  obtain ⟨a4, c4, b4⟩ := fill_step i4 _ r4 a3 (by omega) c3
  obtain ⟨a5, c5, b5⟩ := fill_step i5 _ r5 a4 (by omega) c4
  obtain ⟨a6, c6, b6⟩ := fill_step i6 _ r6 a5 (by omega) c5
  have a7 := fill_last i7 _ r7 a6 h7 c6
  refine ⟨marks_eq.1, marks_eq.2.1, marks_eq.2.2,
    (afterLoop i0 s),
    (afterLoop i1 (afterLoop i0 s)),
    (afterLoop i2 (afterLoop i1 (afterLoop i0 s))),
    (afterLoop i3 (afterLoop i2 (afterLoop i1 (afterLoop i0 s)))),
    (afterLoop i4 (afterLoop i3 (afterLoop i2 (afterLoop i1 (afterLoop i0 s))))),
    (afterLoop i5 (afterLoop i4 (afterLoop i3 (afterLoop i2 (afterLoop i1 (afterLoop i0 s)))))),
    (afterLoop i6 (afterLoop i5 (afterLoop i4 (afterLoop i3 (afterLoop i2 (afterLoop i1 (afterLoop i0 s))))))),
    (afterLoop i7 (afterLoop i6 (afterLoop i5 (afterLoop i4 (afterLoop i3 (afterLoop i2 (afterLoop i1 (afterLoop i0 s)))))))), ?_,
    (afterLoop_running i0 s).trans (debounce_start i0 s hstop r0).1,
    (decided_frame i0 s).2.2.2.2.2.2.1.trans (debounce_start i0 s hstop r0).2.1, a0, b0, a1, a2, a3, a4, a5, a6, ?_⟩
  · exact states_cons_some _ _ _ _ ht (states_cons_some _ _ _ _ q0
      (states_cons_some _ _ _ _ q1 (states_cons_some _ _ _ _ q2
      (states_cons_some _ _ _ _ q3 (states_cons_some _ _ _ _ q4
      (states_cons_some _ _ _ _ q5 (states_cons_some _ _ _ _ q6 rfl)))))))
  · rw [a7]
    simp only [b6, b5, b4, b3, b2, b1, b0, true_and, and_assoc]

/-- Witness of C5: the state after a first pass with the button up, a press
accepted at 151 ms, vessel A rising 10, 10, 11, ..., 16 and vessel B held at
level 10. -/
theorem end_to_end_fill_witness :
    InTable ⟨0, 0, 0, 0, 0, 0, 0, 0, 0, 1, 0⟩ ∧
    staysRunning [⟨580, 580, 1, 151⟩, ⟨580, 580, 1, 200⟩, ⟨522, 580, 1, 250⟩,
      ⟨464, 580, 1, 300⟩, ⟨406, 580, 1, 350⟩, ⟨348, 580, 1, 400⟩, ⟨290, 580, 1, 450⟩,
      ⟨232, 580, 1, 500⟩] ⟨0, 0, 0, 0, 0, 0, 0, 0, 0, 1, 0⟩ = true ∧
    ∃ l, states [⟨580, 580, 1, 151⟩, ⟨580, 580, 1, 200⟩, ⟨522, 580, 1, 250⟩,
      ⟨464, 580, 1, 300⟩, ⟨406, 580, 1, 350⟩, ⟨348, 580, 1, 400⟩, ⟨290, 580, 1, 450⟩,
      ⟨232, 580, 1, 500⟩] ⟨0, 0, 0, 0, 0, 0, 0, 0, 0, 1, 0⟩ = some l ∧
      l.map (fun t => t.raisingA) = [1, 1, 1, 1, 1, 1, 1, 0] := by
  obtain ⟨-, -, -, t0, t1, t2, t3, t4, t5, t6, t7, h, -, -, a0, -, a1, a2, a3, a4, a5, a6, a7⟩ :=
    end_to_end_fill ⟨0, 0, 0, 0, 0, 0, 0, 0, 0, 1, 0⟩
      ⟨580, 580, 1, 151⟩ ⟨580, 580, 1, 200⟩ ⟨522, 580, 1, 250⟩ ⟨464, 580, 1, 300⟩
      ⟨406, 580, 1, 350⟩ ⟨348, 580, 1, 400⟩ ⟨290, 580, 1, 450⟩ ⟨232, 580, 1, 500⟩
      (by decide) rfl rfl rfl (by decide)
      (by decide) (by decide) (by decide) (by decide) (by decide) (by decide) (by decide)
      (by decide)
  refine ⟨by decide, by decide, _, h, ?_⟩
  rw [if_pos (by decide)] at a7
  simp [a0, a1, a2, a3, a4, a5, a6, a7]

/-- One quiet pass: the button block leaves `running`, `ledState` and
`buttonState` alone and records the time of the change, if there is one. -/
theorem debounce_quiet (inp : Input) (s : State) (lc : Option Nat)
    (hlc : ∀ t, lc = some t → s.lastDebounceTime = t)
    (hq : (match (if inp.reading ≠ s.lastButtonState then some inp.millis else lc) with
      | some t => decide (t ≤ inp.millis ∧ inp.millis ≤ t + debounceDelay ∧
          inp.millis < 4294967296)
      | none => false) = true) :
    (debounce inp s).1.running = s.running ∧ (debounce inp s).1.ledState = s.ledState ∧
    (debounce inp s).1.buttonState = s.buttonState ∧
    ∀ t, (if inp.reading ≠ s.lastButtonState then some inp.millis else lc) = some t →
      (debounce inp s).1.lastDebounceTime = t := by
  by_cases hc : inp.reading ≠ s.lastButtonState
  · rw [debounce_change inp s hc, if_pos hc]
    refine ⟨rfl, rfl, rfl, ?_⟩
    intro t ht
    exact Option.some.inj ht
  · rw [if_neg hc] at hq ⊢
    have hc2 : inp.reading = s.lastButtonState := not_not.mp hc
    cases lc with
    | none => simp at hq
    | some t0 =>
      have e := hlc t0 rfl
      simp only [decide_eq_true_eq, debounceDelay] at hq
      rw [debounce_hold inp s hc2 (by omega) (by omega) hq.2.2]
      refine ⟨rfl, rfl, rfl, ?_⟩
      intro t ht
      exact e.trans (Option.some.inj ht)

theorem quiet_states (ins : List Input) :
    ∀ (s : State) (lc : Option Nat), InTable s →
      (∀ t, lc = some t → s.lastDebounceTime = t) →
      quietFrom s.lastButtonState lc ins = true →
      ∃ l, states ins s = some l ∧ l.length = ins.length ∧
        ∀ x ∈ l, x.running = s.running ∧ x.ledState = s.ledState ∧
          x.buttonState = s.buttonState := by
  induction ins with
  | nil => intro s lc _ _ _; exact ⟨[], rfl, rfl, by simp⟩
  | cons inp rest ih =>
    intro s lc ht hlc hq
    simp only [quietFrom, Bool.and_eq_true] at hq
    obtain ⟨hnow, hrest⟩ := hq
    obtain ⟨k1, k2, k3, k4⟩ := debounce_quiet inp s lc hlc hnow
    obtain ⟨b1, b2, b3, b4, b5⟩ := afterLoop_button inp s
    have hrest2 : quietFrom (afterLoop inp s).lastButtonState
        (if inp.reading ≠ s.lastButtonState then some inp.millis else lc) rest = true := by
      rw [b5]; exact hrest
    obtain ⟨l, hl, hlen, hall⟩ := ih (afterLoop inp s) _ (afterLoop_inTable inp s ht)
      (fun t h => b4.trans (k4 t h)) hrest2
    refine ⟨afterLoop inp s :: l, states_cons_some _ _ _ _ ht hl, by simp [hlen], ?_⟩
    intro x hx
    rcases List.mem_cons.mp hx with rfl | hx
    · exact ⟨b1.trans k1, b2.trans k2, b3.trans k3⟩
    · obtain ⟨h1, h2, h3⟩ := hall x hx
      exact ⟨h1.trans (b1.trans k1), h2.trans (b2.trans k2), h3.trans (b3.trans k3)⟩

/-- C6: take any state and any sequence of passes, starting at a pass whose
raw reading differs from the reading before it, in which every pass comes no
more than `debounceDelay` = 150 ms after the most recent pass whose reading
differed from the one before (tick times not decreasing, below 2^32, so the
millisecond clock does not wrap).  Then every pass returns, and after every
pass `running`, `ledState` and the debounced `buttonState` are what they were
at the start, whatever the readings are. -/
theorem debounce_absorbs_oscillation (ins : List Input) (s : State) (ht : InTable s)
    (hq : quietFrom s.lastButtonState none ins = true) :
    debounceDelay = 150 ∧
    ∃ l, states ins s = some l ∧ l.length = ins.length ∧
      ∀ x ∈ l, x.running = s.running ∧ x.ledState = s.ledState ∧
        x.buttonState = s.buttonState :=
  ⟨rfl, quiet_states ins s none ht (fun _ h => by cases h) hq⟩

/-- Witness of C6: a running controller (button last accepted HIGH, reading
LOW before the sequence) sees the reading flip every 100 ms. -/
theorem debounce_absorbs_oscillation_witness :
    InTable ⟨1, 1, 1, 5, 5, 5, 5, 1, 1, 0, 0⟩ ∧
    quietFrom 0 none [⟨580, 580, 1, 1000⟩, ⟨580, 580, 1, 1050⟩, ⟨580, 580, 0, 1100⟩,
      ⟨580, 580, 0, 1150⟩, ⟨580, 580, 1, 1200⟩, ⟨580, 580, 1, 1350⟩] = true ∧
    ∃ l, states [⟨580, 580, 1, 1000⟩, ⟨580, 580, 1, 1050⟩, ⟨580, 580, 0, 1100⟩,
      ⟨580, 580, 0, 1150⟩, ⟨580, 580, 1, 1200⟩, ⟨580, 580, 1, 1350⟩]
        ⟨1, 1, 1, 5, 5, 5, 5, 1, 1, 0, 0⟩ = some l ∧ l.length = 6 ∧
      ∀ x ∈ l, x.running = 1 ∧ x.ledState = 1 ∧ x.buttonState = 1 :=
  ⟨by decide, by decide,
    (debounce_absorbs_oscillation [⟨580, 580, 1, 1000⟩, ⟨580, 580, 1, 1050⟩,
      ⟨580, 580, 0, 1100⟩, ⟨580, 580, 0, 1150⟩, ⟨580, 580, 1, 1200⟩, ⟨580, 580, 1, 1350⟩]
      ⟨1, 1, 1, 5, 5, 5, 5, 1, 1, 0, 0⟩ (by decide) (by decide)).2⟩

/-- After the press has been accepted, passes that keep reading HIGH never
toggle `running` again. -/
theorem held_states (post : List Input) :
    ∀ s : State, InTable s → s.buttonState = HIGH → s.lastButtonState = HIGH →
      (∀ i ∈ post, i.reading = HIGH) →
      ∃ l, states post s = some l ∧ l.length = post.length ∧
        ∀ x ∈ l, x.running = s.running := by
  induction post with
  | nil => intro s _ _ _ _; exact ⟨[], rfl, rfl, by simp⟩
  | cons inp rest ih =>
    intro s ht hb hl hall
    have hr : inp.reading = HIGH := hall inp (List.mem_cons_self _ _)
    have hd := debounce_stable inp s (hr.trans hl.symm) (hr.trans hb.symm)
    obtain ⟨b1, -, b3, -, b5⟩ := afterLoop_button inp s
    rw [hd] at b1 b3
    obtain ⟨l, h1, h2, h3⟩ := ih (afterLoop inp s) (afterLoop_inTable inp s ht)
      (b3.trans hb) (b5.trans hr) (fun i hi => hall i (List.mem_cons_of_mem _ hi))
    refine ⟨afterLoop inp s :: l, states_cons_some _ _ _ _ ht h1, by simp [h2], ?_⟩
    intro x hx
    rcases List.mem_cons.mp hx with rfl | hx
    · exact b1
    · exact (h3 x hx).trans b1

/-- While the reading stays HIGH inside the window nothing is toggled; the
first pass after the window toggles `running`; later passes do not. -/
theorem pending_states (t0 : Nat) (fire : Input) (post : List Input)
    (hfire : fire.reading = HIGH ∧ t0 + 151 ≤ fire.millis ∧ fire.millis < 4294967296)
    (hpost : ∀ i ∈ post, i.reading = HIGH) (pre : List Input) :
    ∀ s : State, InTable s → s.buttonState ≠ HIGH → s.lastButtonState = HIGH →
      s.lastDebounceTime = t0 →
      (∀ i ∈ pre, i.reading = HIGH ∧ t0 ≤ i.millis ∧ i.millis ≤ t0 + 150) →
      ∃ l1 t l2, states (pre ++ fire :: post) s = some (l1 ++ t :: l2) ∧
        l1.length = pre.length ∧ l2.length = post.length ∧
        (∀ x ∈ l1, x.running = s.running) ∧ t.running = toggled s.running ∧
        (∀ x ∈ l2, x.running = toggled s.running) := by
  induction pre with
  | nil =>
    intro s ht hb hl hd _
    have hdb := debounce_fire fire s (hfire.1.trans hl.symm) hfire.1 hb (by omega) hfire.2.2
    obtain ⟨b1, -, b3, -, b5⟩ := afterLoop_button fire s
    rw [hdb] at b1 b3
    obtain ⟨l, h1, h2, h3⟩ := held_states post (afterLoop fire s) (afterLoop_inTable fire s ht)
      b3 (b5.trans hfire.1) hpost
    refine ⟨[], afterLoop fire s, l, ?_, rfl, h2, by simp, b1, ?_⟩
    · exact states_cons_some _ _ _ _ ht h1
    · intro x hx
      exact (h3 x hx).trans b1
  | cons inp rest ih =>
    intro s ht hb hl hd hall
    obtain ⟨hr, ha, hz⟩ := hall inp (List.mem_cons_self _ _)
    have hdb := debounce_hold inp s (hr.trans hl.symm) (by omega) (by omega) (by omega)
    obtain ⟨b1, -, b3, b4, b5⟩ := afterLoop_button inp s
    rw [hdb] at b1 b3 b4
    obtain ⟨l1, t, l2, h1, h2, h3, h4, h5, h6⟩ := ih (afterLoop inp s)
      (afterLoop_inTable inp s ht) (by rw [b3]; exact hb) (b5.trans hr) (b4.trans hd)
      (fun i hi => hall i (List.mem_cons_of_mem _ hi))
    refine ⟨afterLoop inp s :: l1, t, l2, ?_, by simp [h2], h3, ?_, by rw [h5, b1], ?_⟩
    · exact states_cons_some _ _ _ _ ht h1
    · intro x hx
      rcases List.mem_cons.mp hx with rfl | hx
      · exact b1
      · exact (h4 x hx).trans b1
    · intro x hx
      rw [h6 x hx, b1]

/-- C7: the debounced `buttonState` is LOW, the previous reading was LOW, and
the raw reading is HIGH in the pass `first` (at time `t`) and in every later
pass.  Then `running` keeps its value through `first` and every pass at a
time up to `t + 150` (the passes `pre`), is toggled by the first pass at a
time of at least `t + 151` (`fire`), and keeps the toggled value through every
further pass (`post`).  Times are values of the 32-bit millisecond clock,
which does not wrap during the press. -/
theorem debounce_fires_once (s : State) (first fire : Input) (pre post : List Input)
    (ht : InTable s) (hb : s.buttonState = LOW) (hl : s.lastButtonState = LOW)
    (hfirst : first.reading = HIGH)
    (hpre : ∀ i ∈ pre, i.reading = HIGH ∧ first.millis ≤ i.millis ∧
      i.millis ≤ first.millis + 150)
    (hfire : fire.reading = HIGH ∧ first.millis + 151 ≤ fire.millis ∧
      fire.millis < 4294967296)
    (hpost : ∀ i ∈ post, i.reading = HIGH) :
    debounceDelay = 150 ∧ toggled s.running ≠ s.running ∧
    ∃ l1 t l2, states (first :: (pre ++ fire :: post)) s = some (l1 ++ t :: l2) ∧
      l1.length = pre.length + 1 ∧ l2.length = post.length ∧
      (∀ x ∈ l1, x.running = s.running) ∧
      t.running = toggled s.running ∧
      (∀ x ∈ l2, x.running = toggled s.running) := by
  have hc : first.reading ≠ s.lastButtonState := by
    rw [hfirst, hl]; decide
  have hdb := debounce_change first s hc
  obtain ⟨b1, -, b3, b4, b5⟩ := afterLoop_button first s
  rw [hdb] at b1 b3 b4
  have hb2 : (afterLoop first s).buttonState ≠ HIGH := by
    rw [b3]; show s.buttonState ≠ HIGH; rw [hb]; decide
  obtain ⟨l1, t, l2, h1, h2, h3, h4, h5, h6⟩ :=
    pending_states first.millis fire post hfire hpost pre (afterLoop first s)
      (afterLoop_inTable first s ht) hb2 (b5.trans hfirst) b4 hpre
  have htog : toggled s.running ≠ s.running := by
    unfold toggled; split_ifs <;> omega
  refine ⟨rfl, htog, afterLoop first s :: l1, t, l2, ?_, by simp [h2], h3, ?_,
    by rw [h5, b1], ?_⟩
  · exact states_cons_some _ _ _ _ ht h1
  · intro x hx
    rcases List.mem_cons.mp hx with rfl | hx
    · exact b1
    · exact (h4 x hx).trans b1
  · intro x hx
    rw [h6 x hx, b1]

/-- Witness of C7: from the initial state the reading is HIGH from time 0
on; the passes at 0, 100 and 150 ms leave `running` at 0, the pass at 151 ms
sets it to 1, the pass at 400 ms keeps it. -/
theorem debounce_fires_once_witness :
    InTable initState ∧ initState.buttonState = LOW ∧ initState.lastButtonState = LOW ∧
    ∃ l1 t l2, states [⟨580, 580, 1, 0⟩, ⟨580, 580, 1, 100⟩, ⟨580, 580, 1, 150⟩,
        ⟨580, 580, 1, 151⟩, ⟨580, 580, 1, 400⟩] initState = some (l1 ++ t :: l2) ∧
      l1.length = 3 ∧ l2.length = 1 ∧
      (∀ x ∈ l1, x.running = 0) ∧ t.running = 1 ∧ (∀ x ∈ l2, x.running = 1) :=
  ⟨by decide, rfl, rfl,
    (debounce_fires_once initState ⟨580, 580, 1, 0⟩ ⟨580, 580, 1, 151⟩
      [⟨580, 580, 1, 100⟩, ⟨580, 580, 1, 150⟩] [⟨580, 580, 1, 400⟩]
      (by decide) rfl rfl rfl (by decide) (by decide) (by decide)).2.2⟩

/-- C8: for every state, `runPumpA(0)` writes drive level 0 to both
windings of pump A and changes no variable, and `runPumpB(0)` does the same
for pump B; so any number of consecutive stop calls write (0, 0) each time and
leave the state, all four ramp indices included, as it was: no index moves,
in particular none below 0. -/
theorem stop_call_is_idempotent (s : State) (n : Nat) :
    runPumpA 0 s = some (s, [Event.analogWrite motor_a2f 0, Event.analogWrite motor_a2e 0]) ∧
    runPumpB 0 s = some (s, [Event.analogWrite motor_b2f 0, Event.analogWrite motor_b2e 0]) ∧
    pumpCalls (List.replicate n (PumpCall.A 0)) s =
      some (List.replicate n
        (s, [Event.analogWrite motor_a2f 0, Event.analogWrite motor_a2e 0])) ∧
    pumpCalls (List.replicate n (PumpCall.B 0)) s =
      some (List.replicate n
        (s, [Event.analogWrite motor_b2f 0, Event.analogWrite motor_b2e 0])) := by
  have hA : runPumpA 0 s =
      some (s, [Event.analogWrite motor_a2f 0, Event.analogWrite motor_a2e 0]) := by
    unfold runPumpA; simp
  have hB : runPumpB 0 s =
      some (s, [Event.analogWrite motor_b2f 0, Event.analogWrite motor_b2e 0]) := by
    unfold runPumpB; simp
  refine ⟨hA, hB, ?_, ?_⟩
  · induction n with
    | zero => rfl
    | succ k ih => simp only [List.replicate_succ, pumpCalls, pumpCall, hA, ih]
  · induction n with
    | zero => rfl
    | succ k ih => simp only [List.replicate_succ, pumpCalls, pumpCall, hB, ih]

theorem raiseA_calls (n : Nat) :
    ∀ s : State, InTable s →
      pumpCalls (List.replicate n (PumpCall.A 1)) s =
        some ((List.range n).map (fun k => rampedA s (k + 1))) := by
  induction n with
  | zero => intro s _; rfl
  | succ m ih =>
    intro s hs
    have h1 : runPumpA 1 s = some (rampedA s 1) := by
      rw [runPumpA_eq 1 s hs]
      obtain ⟨⟨a0, a1⟩, ⟨b0, b1⟩, -, -⟩ := hs
      have e1 : stepIndex 1 s.motor_a2f_index = min (s.motor_a2f_index + 1) 13 := by
        unfold stepIndex motor_curve_len; split_ifs <;> omega
      have e2 : stepIndex 1 s.motor_a2e_index = min (s.motor_a2e_index + 1) 13 := by
        unfold stepIndex motor_curve_len; split_ifs <;> omega
      simp [rampedA, driveOf, e1, e2]
    have h2 : InTable (rampedA s 1).1 := by
      obtain ⟨⟨a0, a1⟩, ⟨b0, b1⟩, c, d⟩ := hs
      refine ⟨⟨?_, ?_⟩, ⟨?_, ?_⟩, c, d⟩ <;> simp only [rampedA] <;> omega
    have h3 : ∀ k : Nat, rampedA (rampedA s 1).1 (k + 1) = rampedA s (k + 1 + 1) := by
      intro k
      obtain ⟨⟨a0, a1⟩, ⟨b0, b1⟩, -, -⟩ := hs
      have e1 : min (min (s.motor_a2f_index + ((1 : Nat) : Int)) 13 + ((k + 1 : Nat) : Int)) 13 =
          min (s.motor_a2f_index + ((k + 1 + 1 : Nat) : Int)) 13 := by omega
      have e2 : min (min (s.motor_a2e_index + ((1 : Nat) : Int)) 13 + ((k + 1 : Nat) : Int)) 13 =
          min (s.motor_a2e_index + ((k + 1 + 1 : Nat) : Int)) 13 := by omega
      simp only [rampedA, e1, e2]
    simp only [List.replicate_succ, pumpCalls, pumpCall, h1, ih _ h2, h3,
      List.range_succ_eq_map, List.map_cons, List.map_map]
    rfl

theorem raiseB_calls (n : Nat) :
    ∀ s : State, InTable s →
      pumpCalls (List.replicate n (PumpCall.B 1)) s =
        some ((List.range n).map (fun k => rampedB s (k + 1))) := by
  induction n with
  | zero => intro s _; rfl
  | succ m ih =>
    intro s hs
    have h1 : runPumpB 1 s = some (rampedB s 1) := by
      rw [runPumpB_eq 1 s hs]
      obtain ⟨-, -, ⟨a0, a1⟩, ⟨b0, b1⟩⟩ := hs
      have e1 : stepIndex 1 s.motor_b2f_index = min (s.motor_b2f_index + 1) 13 := by
        unfold stepIndex motor_curve_len; split_ifs <;> omega
      have e2 : stepIndex 1 s.motor_b2e_index = min (s.motor_b2e_index + 1) 13 := by
        unfold stepIndex motor_curve_len; split_ifs <;> omega
      simp [rampedB, driveOf, e1, e2]
    have h2 : InTable (rampedB s 1).1 := by
      obtain ⟨c, d, ⟨a0, a1⟩, ⟨b0, b1⟩⟩ := hs
      refine ⟨c, d, ⟨?_, ?_⟩, ⟨?_, ?_⟩⟩ <;> simp only [rampedB] <;> omega
    have h3 : ∀ k : Nat, rampedB (rampedB s 1).1 (k + 1) = rampedB s (k + 1 + 1) := by
      intro k
      obtain ⟨-, -, ⟨a0, a1⟩, ⟨b0, b1⟩⟩ := hs
      have e1 : min (min (s.motor_b2f_index + ((1 : Nat) : Int)) 13 + ((k + 1 : Nat) : Int)) 13 =
          min (s.motor_b2f_index + ((k + 1 + 1 : Nat) : Int)) 13 := by omega
      have e2 : min (min (s.motor_b2e_index + ((1 : Nat) : Int)) 13 + ((k + 1 : Nat) : Int)) 13 =
          min (s.motor_b2e_index + ((k + 1 + 1 : Nat) : Int)) 13 := by omega
      simp only [rampedB, e1, e2]
    simp only [List.replicate_succ, pumpCalls, pumpCall, h1, ih _ h2, h3,
      List.range_succ_eq_map, List.map_cons, List.map_map]
    rfl

theorem curveVal_ramp (k : Nat) :
    (k + 1 ≤ 12 → curveVal (min ((0 : Int) + ((k + 1 : Nat) : Int)) 13) < 255) ∧
    (13 ≤ k + 1 → curveVal (min ((0 : Int) + ((k + 1 : Nat) : Int)) 13) = 255) := by
  constructor
  · intro h
    have e : min ((0 : Int) + ((k + 1 : Nat) : Int)) 13 = ((k + 1 : Nat) : Int) := by omega
    rw [e]
    have hk : k < 12 := by omega
    interval_cases k <;> decide
  · intro h
    have e : min ((0 : Int) + ((k + 1 : Nat) : Int)) 13 = 13 := by omega
    rw [e]
    decide

/-- C9: from the initial state (all indices 0), under consecutive
`runPumpA(+1)` calls the drive level written to both windings is below 255 on
each of the first 12 calls, is 255 on the 13th, and is 255 on every later
call; `motor_curve_len` = 13.  Call number `k + 1` is entry `k` of the list.
The same holds for `runPumpB`. -/
theorem ramp_up_takes_thirteen_calls (n : Nat) :
    motor_curve_len = 13 ∧
    (∃ l, pumpCalls (List.replicate n (PumpCall.A 1)) initState = some l ∧ l.length = n ∧
      ∀ k, k < n → ∃ t v,
        l[k]? = some (t, [Event.analogWrite motor_a2f v, Event.analogWrite motor_a2e v]) ∧
        (k + 1 ≤ 12 → v < 255) ∧ (13 ≤ k + 1 → v = 255)) ∧
    (∃ l, pumpCalls (List.replicate n (PumpCall.B 1)) initState = some l ∧ l.length = n ∧
      ∀ k, k < n → ∃ t v,
        l[k]? = some (t, [Event.analogWrite motor_b2f v, Event.analogWrite motor_b2e v]) ∧
        (k + 1 ≤ 12 → v < 255) ∧ (13 ≤ k + 1 → v = 255)) := by
  refine ⟨rfl, ⟨_, raiseA_calls n initState (by decide), by simp, ?_⟩,
    ⟨_, raiseB_calls n initState (by decide), by simp, ?_⟩⟩
  · intro k hk
    refine ⟨(rampedA initState (k + 1)).1, _, ?_, curveVal_ramp k⟩
    rw [List.getElem?_map, List.getElem?_range hk]
    rfl
  · intro k hk
    refine ⟨(rampedB initState (k + 1)).1, _, ?_, curveVal_ramp k⟩
    rw [List.getElem?_map, List.getElem?_range hk]
    rfl

/-- Witness of C9: twenty raise calls; the 12th writes 254, the 13th and the
20th write 255. -/
theorem ramp_up_takes_thirteen_calls_witness :
    ∃ l, pumpCalls (List.replicate 20 (PumpCall.A 1)) initState = some l ∧ l.length = 20 ∧
      (∃ t v, l[11]? = some (t, [Event.analogWrite motor_a2f v, Event.analogWrite motor_a2e v]) ∧
        v < 255) ∧
      (∃ t v, l[12]? = some (t, [Event.analogWrite motor_a2f v, Event.analogWrite motor_a2e v]) ∧
        v = 255) ∧
      (∃ t v, l[19]? = some (t, [Event.analogWrite motor_a2f v, Event.analogWrite motor_a2e v]) ∧
        v = 255) := by
  obtain ⟨-, ⟨l, h1, h2, h3⟩, -⟩ := ramp_up_takes_thirteen_calls 20
  refine ⟨l, h1, h2, ?_, ?_, ?_⟩
  · obtain ⟨t, v, e, p, -⟩ := h3 11 (by decide)
    exact ⟨t, v, e, p (by decide)⟩
  · obtain ⟨t, v, e, -, p⟩ := h3 12 (by decide)
    exact ⟨t, v, e, p (by decide)⟩
  · obtain ⟨t, v, e, -, p⟩ := h3 19 (by decide)
    exact ⟨t, v, e, p (by decide)⟩

/-- C10: for every echo duration `d` (in microseconds) the level returned by
`getWaterLevelA` and by `getWaterLevelB` is `max(vesselHeight - (d / 29) / 2, 0)`
with `vesselHeight` = 20 and truncating division; it is never negative, it is
0 whenever the computed distance is at least `vesselHeight`, which is so for
every `d >= 1160`, and for `d >= 0` it is at most `vesselHeight` (and the
truncating divisions are then the usual quotients). -/
theorem water_level_estimate (d : Int) :
    vesselHeight = 20 ∧
    (getWaterLevelA d).1 = waterLevelFormula d ∧
    (getWaterLevelB d).1 = waterLevelFormula d ∧
    0 ≤ (getWaterLevelA d).1 ∧ 0 ≤ (getWaterLevelB d).1 ∧
    (vesselHeight ≤ (getDistance common_ping d).1 →
      (getWaterLevelA d).1 = 0 ∧ (getWaterLevelB d).1 = 0) ∧
    (1160 ≤ d → vesselHeight ≤ (getDistance common_ping d).1 ∧
      (getWaterLevelA d).1 = 0 ∧ (getWaterLevelB d).1 = 0) ∧
    (0 ≤ d → (getWaterLevelA d).1 ≤ vesselHeight ∧ (getWaterLevelB d).1 ≤ vesselHeight ∧
      waterLevelFormula d = max (20 - d / 29 / 2) 0) := by
  have hv : vesselHeight = 20 := rfl
  have hA : (getWaterLevelA d).1 = waterLevelFormula d := by
    simp only [getWaterLevelA, getDistance, microsecondsToCentimeters, waterLevelFormula]
    split_ifs with h
    · exact (max_eq_left (le_of_lt h)).symm
    · exact (max_eq_right (not_lt.mp h)).symm
  have hB : (getWaterLevelB d).1 = (getWaterLevelA d).1 := rfl
  have hpos : ∀ x : Int, 0 ≤ x → Int.tdiv (Int.tdiv x 29) 2 = x / 29 / 2 := by
    intro x hx
    rw [Int.tdiv_eq_ediv hx (by decide), Int.tdiv_eq_ediv (by omega) (by decide)]
  have hdist : (getDistance common_ping d).1 = Int.tdiv (Int.tdiv d 29) 2 := rfl
  have hf : waterLevelFormula d = max (20 - Int.tdiv (Int.tdiv d 29) 2) 0 := rfl
  refine ⟨hv, hA, hB.trans hA, ?_, ?_, ?_, ?_, ?_⟩
  · rw [hA, hf]; exact le_max_right _ _
  · rw [hB, hA, hf]; exact le_max_right _ _
  · intro h
    rw [hdist, hv] at h
    rw [hB, hA, hf]
    exact ⟨max_eq_right (by omega), max_eq_right (by omega)⟩
  · intro h
    rw [hB, hA, hf, hdist, hv, hpos d (by omega)]
    exact ⟨by omega, max_eq_right (by omega), max_eq_right (by omega)⟩
  · intro h
    rw [hB, hA, hf, hv, hpos d h]
    exact ⟨by omega, by omega, rfl⟩

/-- Witness of C10: an echo of 1160 us, the first duration that reads as an
empty vessel. -/
theorem water_level_estimate_witness :
    (1160 : Int) ≤ 1160 ∧ (getWaterLevelA 1160).1 = 0 ∧ (getWaterLevelB 1160).1 = 0 ∧
    (getWaterLevelA 1159).1 = 1 ∧ (getWaterLevelA 0).1 = 20 :=
  ⟨le_refl _, ((water_level_estimate 1160).2.2.2.2.2.2.1 (le_refl _)).2.1,
    ((water_level_estimate 1160).2.2.2.2.2.2.1 (le_refl _)).2.2, by decide, by decide⟩

/-- C11 as stated fails: with echo duration 0, the result of `pulseIn` on a
timeout, the computed distance is 0 and both level functions return 20, not
0. -/
theorem timeout_reads_as_full_vessel :
    (getDistance common_ping 0).1 = 0 ∧
    (getWaterLevelA 0).1 = 20 ∧ (getWaterLevelB 0).1 = 20 ∧
    (getWaterLevelA 0).1 ≠ 0 ∧ (getWaterLevelB 0).1 ≠ 0 := by
  decide

/-- C11, amended: when `pulseIn` reports its timeout result, the echo
duration 0, `getDistance` returns distance 0 and `getWaterLevelA` / `getWaterLevelB` return
`vesselHeight`, the level of a full vessel; the clamp to level 0 acts only on
distances of at least `vesselHeight`, that is on echo durations of at least
1160 us, and not on a timeout. -/
theorem timeout_level_is_vesselHeight :
    (getDistance common_ping 0).1 = 0 ∧
    (getWaterLevelA 0).1 = vesselHeight ∧
    (getWaterLevelB 0).1 = vesselHeight ∧
    ∀ d : Int, 0 ≤ d →
      ((getWaterLevelA d).1 = 0 ↔ 1160 ≤ d) ∧ ((getWaterLevelB d).1 = 0 ↔ 1160 ≤ d) := by
  refine ⟨rfl, rfl, rfl, ?_⟩
  intro d hd
  have hB : (getWaterLevelB d).1 = (getWaterLevelA d).1 := rfl
  have hA : (getWaterLevelA d).1 =
      if vesselHeight - d / 29 / 2 > 0 then vesselHeight - d / 29 / 2 else 0 := by
    simp only [getWaterLevelA, getDistance, microsecondsToCentimeters]
    rw [Int.tdiv_eq_ediv hd (by decide), Int.tdiv_eq_ediv (by omega) (by decide)]
  have hv : vesselHeight = 20 := rfl
  rw [hB, hA, hv]
  have key : (if (20 : Int) - d / 29 / 2 > 0 then 20 - d / 29 / 2 else 0) = 0 ↔ 1160 ≤ d := by
    split_ifs with h
    · constructor <;> intro h2 <;> omega
    · constructor
      · intro _; omega
      · intro _; trivial
  exact ⟨key, key⟩

theorem pinAfter_solenoidWrites (pin : Nat) (hp : pin = solenoid_a1 ∨ pin = solenoid_b1)
    (ev : List Event) :
    ∀ before : Int, pinAfter pin before ev = pinAfter pin before (solenoidWrites ev) := by
  induction ev with
  | nil => intro before; rfl
  | cons e rest ih =>
    intro before
    cases e with
    | analogWrite p v =>
      have h1 : solenoidWrites (Event.analogWrite p v :: rest) = solenoidWrites rest := rfl
      rw [h1, ← ih before]
      rfl
    | digitalWrite p v =>
      by_cases hs : isSolenoidWrite (Event.digitalWrite p v) = true
      · have h1 : solenoidWrites (Event.digitalWrite p v :: rest) =
            Event.digitalWrite p v :: solenoidWrites rest := by
          simp only [solenoidWrites, List.filter_cons, hs, if_true]
        rw [h1]
        simp only [pinAfter, List.foldl_cons]
        exact ih _
      · have h1 : solenoidWrites (Event.digitalWrite p v :: rest) = solenoidWrites rest := by
          simp only [solenoidWrites, List.filter_cons, hs]
          rfl
        have hne : p ≠ pin := by
          intro h
          apply hs
          rcases hp with hp | hp <;> simp [isSolenoidWrite, h, hp]
        rw [h1, ← ih before]
        simp only [pinAfter, List.foldl_cons, hne, if_false]

/-- C12: a pass in which the controller is not running once the button has
been processed writes to neither solenoid, so the level of solenoid A and of
solenoid B after the pass is the level before it, whatever that was.  In any
pass the solenoids are written only by the phase decision: there are solenoid
writes exactly when the controller is running and both directions are 0 after
the threshold checks, and they are then those of `exhale` or of `inhale`. -/
theorem valves_retained_while_stopped (inp : Input) (s : State) (ht : InTable s) :
    ∃ s1 ev, loop inp s = some (s1, ev) ∧
      ((debounce inp s).1.running = 0 →
        solenoidWrites ev = [] ∧
        ∀ before : Int, pinAfter solenoid_a1 before ev = before ∧
          pinAfter solenoid_b1 before ev = before) ∧
      (solenoidWrites ev ≠ [] ↔
        (debounce inp s).1.running ≠ 0 ∧ (checkA (levelA inp) s).raisingA = 0 ∧
          (checkB (levelB inp) s).raisingB = 0) ∧
      (solenoidWrites ev = [] ∨
        solenoidWrites ev = (exhale s).2 ∨ solenoidWrites ev = (inhale s).2) := by
  refine ⟨afterLoop inp s, _, loop_eq inp s ht, ?_, ?_, ?_⟩
  · intro hstop
    have h0 : solenoidWrites (decidedWrites inp s ++ pumpWrites inp s) = [] := by
      rw [solenoidWrites_loop, cycle_stopped _ _ _ hstop]
    refine ⟨h0, fun before => ⟨?_, ?_⟩⟩
    · rw [pinAfter_solenoidWrites _ (Or.inl rfl), h0]; rfl
    · rw [pinAfter_solenoidWrites _ (Or.inr rfl), h0]; rfl
  · rw [solenoidWrites_loop]
    by_cases hrun : (debounce inp s).1.running = 0
    · rw [cycle_stopped _ _ _ hrun]
      simp [hrun]
    · obtain ⟨ca, cb⟩ := checked_raising inp s
      rw [cycle_running _ _ _ hrun]
      simp only [levelA, levelB] at ca cb ⊢
      rw [ca, cb]
      by_cases hz : (checkA (getWaterLevelA inp.echoA).1 s).raisingA = 0 ∧
          (checkB (getWaterLevelB inp.echoB).1 s).raisingB = 0
      · rw [if_pos hz]
        split_ifs <;> simp [exhale, inhale, solenoidA, solenoidB, hrun, hz]
      · rw [if_neg hz]
        simp only [ne_eq, not_true_eq_false, false_iff, not_and]
        intro _ h1 h2
        exact hz ⟨h1, h2⟩
  · rw [solenoidWrites_loop]
    by_cases hrun : (debounce inp s).1.running = 0
    · rw [cycle_stopped _ _ _ hrun]
      exact Or.inl rfl
    · rw [cycle_running _ _ _ hrun]
      split_ifs
      · exact Or.inr (Or.inl rfl)
      · exact Or.inr (Or.inr rfl)
      · exact Or.inl rfl

/-- Witness of C12: the pass that stops the controller (press accepted at
700 ms) in a state left by Inhale writes to no solenoid. -/
theorem valves_retained_while_stopped_witness :
    InTable ⟨1, 1, 1, 4, 4, 4, 4, 1, 0, 1, 500⟩ ∧
    (debounce ⟨580, 580, 1, 700⟩ ⟨1, 1, 1, 4, 4, 4, 4, 1, 0, 1, 500⟩).1.running = 0 ∧
    ∃ s1 ev, loop ⟨580, 580, 1, 700⟩ ⟨1, 1, 1, 4, 4, 4, 4, 1, 0, 1, 500⟩ = some (s1, ev) ∧
      solenoidWrites ev = [] ∧ pinAfter solenoid_a1 LOW ev = LOW ∧
      pinAfter solenoid_b1 HIGH ev = HIGH := by
  obtain ⟨s1, ev, h, hs, -, -⟩ :=
    valves_retained_while_stopped ⟨580, 580, 1, 700⟩ ⟨1, 1, 1, 4, 4, 4, 4, 1, 0, 1, 500⟩
      (by decide)
  obtain ⟨h0, hp⟩ := hs (by decide)
  exact ⟨by decide, by decide, s1, ev, h, h0, (hp LOW).1, (hp HIGH).2⟩

theorem debounce_accepted (inp : Input) (s : State) (h : accepted inp s) :
    (debounce inp s).1.buttonState = inp.reading ∧
    (inp.reading = HIGH →
      (debounce inp s).1.running = toggled s.running ∧
      (debounce inp s).1.ledState = (if s.ledState = 0 then 1 else 0)) ∧
    (inp.reading ≠ HIGH →
      (debounce inp s).1.running = s.running ∧ (debounce inp s).1.ledState = s.ledState) := by
  obtain ⟨h1, h2, h3⟩ := h
  unfold debounce
  simp only [h1, ne_eq, not_true_eq_false, if_false, h2, if_true]
  rw [← h1]
  simp only [h3, not_false_eq_true, if_true]
  by_cases hh : inp.reading = HIGH
  · simp [hh, toggled]
  · simp [hh]

theorem debounce_not_accepted (inp : Input) (s : State) (h : ¬ accepted inp s) :
    (debounce inp s).1.running = s.running ∧ (debounce inp s).1.ledState = s.ledState ∧
    (debounce inp s).1.buttonState = s.buttonState := by
  by_cases hc : inp.reading ≠ s.lastButtonState
  · rw [debounce_change inp s hc]
    exact ⟨rfl, rfl, rfl⟩
  · have hc2 : inp.reading = s.lastButtonState := not_not.mp hc
    unfold accepted at h
    unfold debounce
    simp only [hc2, ne_eq, not_true_eq_false, if_false]
    rw [← hc2]
    by_cases hw : ulongSub inp.millis s.lastDebounceTime > debounceDelay
    · have hb : inp.reading = s.buttonState := by
        by_contra hb
        exact h ⟨hc2, hw, hb⟩
      simp [hw, hb]
    · simp [hw]

/-- C13: in a pass in which a changed raw reading is accepted after the
debounce window, `buttonState` takes the reading; `running` and `ledState` are
toggled when the accepted reading is HIGH and keep their values when it is
not (an accepted release).  In a pass whose reading equals the debounced
`buttonState`, and in every pass that accepts nothing, `running`, `ledState`
and `buttonState` keep their values.  So they are toggled exactly in the
passes that accept HIGH. -/
theorem only_accepted_high_toggles (inp : Input) (s : State) (ht : InTable s) :
    ∃ s1 ev, loop inp s = some (s1, ev) ∧
      (accepted inp s →
        s1.buttonState = inp.reading ∧
        (inp.reading = HIGH →
          s1.running = toggled s.running ∧ s1.running ≠ s.running ∧
          s1.ledState = (if s.ledState = 0 then 1 else 0) ∧ s1.ledState ≠ s.ledState) ∧
        (inp.reading ≠ HIGH → s1.running = s.running ∧ s1.ledState = s.ledState)) ∧
      (inp.reading = s.buttonState →
        s1.running = s.running ∧ s1.ledState = s.ledState ∧
        s1.buttonState = s.buttonState) ∧
      (¬ accepted inp s →
        s1.running = s.running ∧ s1.ledState = s.ledState ∧
        s1.buttonState = s.buttonState) ∧
      ((s1.running ≠ s.running ∨ s1.ledState ≠ s.ledState) ↔
        accepted inp s ∧ inp.reading = HIGH) := by
  obtain ⟨b1, b2, b3, -, -⟩ := afterLoop_button inp s
  have htog : toggled s.running ≠ s.running := by
    unfold toggled; split_ifs <;> omega
  have hled : (if s.ledState = 0 then (1 : Int) else 0) ≠ s.ledState := by
    split_ifs <;> omega
  refine ⟨afterLoop inp s, _, loop_eq inp s ht, ?_, ?_, ?_, ?_⟩
  · intro ha
    obtain ⟨k1, k2, k3⟩ := debounce_accepted inp s ha
    refine ⟨b3.trans k1, ?_, ?_⟩
    · intro hh
      obtain ⟨r1, r2⟩ := k2 hh
      exact ⟨b1.trans r1, by rw [b1, r1]; exact htog, b2.trans r2, by rw [b2, r2]; exact hled⟩
    · intro hh
      obtain ⟨r1, r2⟩ := k3 hh
      exact ⟨b1.trans r1, b2.trans r2⟩
  · intro he
    have hn : ¬ accepted inp s := fun ha => ha.2.2 he
    obtain ⟨k1, k2, k3⟩ := debounce_not_accepted inp s hn
    exact ⟨b1.trans k1, b2.trans k2, b3.trans k3⟩
  · intro hn
    obtain ⟨k1, k2, k3⟩ := debounce_not_accepted inp s hn
    exact ⟨b1.trans k1, b2.trans k2, b3.trans k3⟩
  · constructor
    · intro hch
      by_cases ha : accepted inp s
      · refine ⟨ha, ?_⟩
        by_contra hh
        obtain ⟨r1, r2⟩ := (debounce_accepted inp s ha).2.2 hh
        rcases hch with hch | hch
        · exact hch (b1.trans r1)
        · exact hch (b2.trans r2)
      · obtain ⟨k1, k2, -⟩ := debounce_not_accepted inp s ha
        rcases hch with hch | hch
        · exact absurd (b1.trans k1) hch
        · exact absurd (b2.trans k2) hch
    · rintro ⟨ha, hh⟩
      obtain ⟨r1, -⟩ := (debounce_accepted inp s ha).2.1 hh
      left
      rw [b1, r1]
      exact htog

/-- Witness of C13: the pass at 151 ms from the state the first pass leaves
(reading HIGH since time 0) accepts HIGH and starts the controller. -/
theorem only_accepted_high_toggles_witness :
    InTable ⟨0, 0, 0, 0, 0, 0, 0, 0, 0, 1, 0⟩ ∧
    accepted ⟨580, 580, 1, 151⟩ ⟨0, 0, 0, 0, 0, 0, 0, 0, 0, 1, 0⟩ ∧
    ∃ s1 ev, loop ⟨580, 580, 1, 151⟩ ⟨0, 0, 0, 0, 0, 0, 0, 0, 0, 1, 0⟩ = some (s1, ev) ∧
      s1.buttonState = 1 ∧ s1.running = 1 ∧ s1.ledState = 1 := by
  obtain ⟨s1, ev, h, ha, -, -, -⟩ :=
    only_accepted_high_toggles ⟨580, 580, 1, 151⟩ ⟨0, 0, 0, 0, 0, 0, 0, 0, 0, 1, 0⟩
      (by decide)
  obtain ⟨k1, k2, -⟩ := ha (by decide)
  obtain ⟨r1, -, r2, -⟩ := k2 rfl
  exact ⟨by decide, by decide, s1, ev, h, k1, r1, r2⟩

theorem aligned_step (inp : Input) (s : State) (h : Aligned s) : Aligned (afterLoop inp s) := by
  obtain ⟨ha, hb, hab⟩ := h
  have ea : (afterLoop inp s).raisingA = (decided inp s).raisingA := rfl
  have eb : (afterLoop inp s).raisingB = (decided inp s).raisingB := rfl
  unfold Aligned
  rw [ea, eb]
  by_cases hrun : (debounce inp s).1.running = 0
  · obtain ⟨da, db⟩ := decided_stopped inp s hrun
    rw [da, db]
    exact ⟨Or.inr (Or.inl rfl), hb, fun h => absurd rfl h⟩
  · obtain ⟨da, db⟩ := decided_running inp s hrun
    have ka := checkA_raisingA (levelA inp) s
    have kb := checkB_raisingB (levelB inp) s
    have ca : (checkA (levelA inp) s).raisingA = 0 ∨
        (checkA (levelA inp) s).raisingA = s.raisingA := by
      rw [ka]; split_ifs <;> first | exact Or.inl rfl | exact Or.inr rfl | (right; omega)
    have cb : (checkB (levelB inp) s).raisingB = 0 ∨
        (checkB (levelB inp) s).raisingB = s.raisingB := by
      rw [kb]; split_ifs <;> first | exact Or.inl rfl | exact Or.inr rfl | (right; omega)
    rw [da, db]
    by_cases hz : (checkA (levelA inp) s).raisingA = 0 ∧ (checkB (levelB inp) s).raisingB = 0
    · rw [if_pos hz, if_pos hz]
      split_ifs <;> simp
    · rw [if_neg hz, if_neg hz]
      rcases ca with ca | ca <;> rcases cb with cb | cb
      · exact absurd ⟨ca, cb⟩ hz
      · rw [ca, cb]
        exact ⟨Or.inr (Or.inl rfl), hb, fun h => absurd rfl h⟩
      · rw [ca, cb]
        exact ⟨ha, Or.inr (Or.inl rfl), fun _ h => absurd rfl h⟩
      · rw [ca, cb]
        exact ⟨ha, hb, hab⟩

theorem aligned_states (ins : List Input) :
    ∀ s : State, InTable s → Aligned s →
      ∃ l, states ins s = some l ∧ l.length = ins.length ∧ ∀ t ∈ l, Aligned t := by
  induction ins with
  | nil => intro s _ _; exact ⟨[], rfl, rfl, by simp⟩
  | cons inp rest ih =>
    intro s ht ha
    have h1 := aligned_step inp s ha
    obtain ⟨l, hl, hlen, hall⟩ := ih (afterLoop inp s) (afterLoop_inTable inp s ht) h1
    refine ⟨afterLoop inp s :: l, states_cons_some _ _ _ _ ht hl, by simp [hlen], ?_⟩
    intro x hx
    rcases List.mem_cons.mp hx with rfl | hx
    · exact h1
    · exact hall x hx

/-- C14: both directions are 0 in the initial state, and for every sequence
of passes from it, with any button readings, times and levels, every pass
returns, and after every pass `raisingA` and `raisingB` each lie in
{-1, 0, +1}, it is not the case that one is +1 while the other is -1, and
whenever both are non-zero they are equal. -/
theorem vessels_never_opposed (ins : List Input) :
    initState.raisingA = 0 ∧ initState.raisingB = 0 ∧
    ∃ l, states ins initState = some l ∧ l.length = ins.length ∧
      ∀ t ∈ l,
        (t.raisingA = -1 ∨ t.raisingA = 0 ∨ t.raisingA = 1) ∧
        (t.raisingB = -1 ∨ t.raisingB = 0 ∨ t.raisingB = 1) ∧
        ¬ (t.raisingA = 1 ∧ t.raisingB = -1) ∧ ¬ (t.raisingA = -1 ∧ t.raisingB = 1) ∧
        (t.raisingA ≠ 0 → t.raisingB ≠ 0 → t.raisingA = t.raisingB) := by
  obtain ⟨l, hl, hlen, hall⟩ := aligned_states ins initState (by decide)
    ⟨Or.inr (Or.inl rfl), Or.inr (Or.inl rfl), fun h => absurd rfl h⟩
  refine ⟨rfl, rfl, l, hl, hlen, ?_⟩
  intro t ht
  obtain ⟨ha, hb, hab⟩ := hall t ht
  refine ⟨ha, hb, ?_, ?_, hab⟩
  · rintro ⟨h1, h2⟩
    have := hab (by omega) (by omega)
    omega
  · rintro ⟨h1, h2⟩
    have := hab (by omega) (by omega)
    omega

theorem lastState_cons (s : State) (r : State × List Event) (l : List (State × List Event)) :
    lastState s (r :: l) = lastState r.1 l := by
  cases l with
  | nil => rfl
  | cons x rest =>
    obtain ⟨y, hy⟩ : ∃ y, (x :: rest).getLast? = some y :=
      ⟨_, List.getLast?_eq_getLast _ (List.cons_ne_nil x rest)⟩
    simp only [lastState, List.getLast?_cons_cons, hy]

theorem pumpCall_paired (c : PumpCall) (s : State) (h : InTable s) (hp : Paired s) :
    ∃ r, pumpCall c s = some r ∧ InTable r.1 ∧ Paired r.1 := by
  obtain ⟨r, hr, hin⟩ := pumpCall_inTable c s h
  refine ⟨r, hr, hin, ?_⟩
  obtain ⟨p1, p2⟩ := hp
  cases c with
  | A d =>
    have e := runPumpA_eq d s h
    simp only [pumpCall] at hr
    rw [e] at hr
    rw [← Option.some.inj hr]
    exact ⟨by simp only [p1], p2⟩
  | B d =>
    have e := runPumpB_eq d s h
    simp only [pumpCall] at hr
    rw [e] at hr
    rw [← Option.some.inj hr]
    exact ⟨p1, by simp only [p2]⟩

theorem pumpCalls_paired (calls : List PumpCall) :
    ∀ s : State, InTable s → Paired s →
      ∃ l, pumpCalls calls s = some l ∧ InTable (lastState s l) ∧ Paired (lastState s l) := by
  induction calls with
  | nil => intro s h hp; exact ⟨[], rfl, h, hp⟩
  | cons c rest ih =>
    intro s h hp
    obtain ⟨r, hr, hin, hpr⟩ := pumpCall_paired c s h hp
    obtain ⟨l, hl, h1, h2⟩ := ih r.1 hin hpr
    refine ⟨r :: l, ?_, ?_, ?_⟩
    · simp only [pumpCalls, hr, hl]
    · rw [lastState_cons]; exact h1
    · rw [lastState_cons]; exact h2

/-- C15: let `s` be the state any sequence of `runPumpA` / `runPumpB` calls
from the initial state ends in.  Then in `s` the forward and the reverse index
of each pump are equal, and any further call returns and moves both indices of
the pump it drives together: up by one (held at 13) for a direction above 0,
down by one (held at 0) for a direction below 0, not at all for direction 0;
it leaves them equal, leaves the other pump's indices alone, and writes one
and the same drive level to the forward and to the reverse output. -/
theorem windings_stepped_identically (calls : List PumpCall) (c : PumpCall) :
    ∃ l r, pumpCalls calls initState = some l ∧
      pumpCall c (lastState initState l) = some r ∧
      (lastState initState l).motor_a2f_index = (lastState initState l).motor_a2e_index ∧
      (lastState initState l).motor_b2f_index = (lastState initState l).motor_b2e_index ∧
      r.1.motor_a2f_index = r.1.motor_a2e_index ∧
      r.1.motor_b2f_index = r.1.motor_b2e_index ∧
      (∀ d, c = PumpCall.A d →
        (0 < d → r.1.motor_a2f_index = min ((lastState initState l).motor_a2f_index + 1) 13) ∧
        (d < 0 → r.1.motor_a2f_index = max ((lastState initState l).motor_a2f_index - 1) 0) ∧
        (d = 0 → r.1.motor_a2f_index = (lastState initState l).motor_a2f_index) ∧
        r.1.motor_b2f_index = (lastState initState l).motor_b2f_index ∧
        ∃ v, r.2 = [Event.analogWrite motor_a2f v, Event.analogWrite motor_a2e v]) ∧
      (∀ d, c = PumpCall.B d →
        (0 < d → r.1.motor_b2f_index = min ((lastState initState l).motor_b2f_index + 1) 13) ∧
        (d < 0 → r.1.motor_b2f_index = max ((lastState initState l).motor_b2f_index - 1) 0) ∧
        (d = 0 → r.1.motor_b2f_index = (lastState initState l).motor_b2f_index) ∧
        r.1.motor_a2f_index = (lastState initState l).motor_a2f_index ∧
        ∃ v, r.2 = [Event.analogWrite motor_b2f v, Event.analogWrite motor_b2e v]) := by
  obtain ⟨l, hl, hin, hp⟩ := pumpCalls_paired calls initState (by decide) ⟨rfl, rfl⟩
  obtain ⟨r, hr, -, hpr⟩ := pumpCall_paired c _ hin hp
  have hstep : ∀ d i : Int, 0 ≤ i → i ≤ 13 →
      (0 < d → stepIndex d i = min (i + 1) 13) ∧ (d < 0 → stepIndex d i = max (i - 1) 0) ∧
      (d = 0 → stepIndex d i = i) := by
    intro d i h0 h1
    unfold stepIndex motor_curve_len
    refine ⟨fun h => ?_, fun h => ?_, fun h => ?_⟩ <;> split_ifs <;> omega
  refine ⟨l, r, hl, hr, hp.1, hp.2, hpr.1, hpr.2, ?_, ?_⟩
  · intro d hc
    subst hc
    simp only [pumpCall, runPumpA_eq d _ hin] at hr
    rw [← Option.some.inj hr]
    obtain ⟨k1, k2, k3⟩ := hstep d _ hin.1.1 hin.1.2
    refine ⟨k1, k2, k3, rfl, driveOf d (lastState initState l).motor_a2f_index, ?_⟩
    simp only [hp.1]
  · intro d hc
    subst hc
    simp only [pumpCall, runPumpB_eq d _ hin] at hr
    rw [← Option.some.inj hr]
    obtain ⟨k1, k2, k3⟩ := hstep d _ hin.2.2.1.1 hin.2.2.1.2
    refine ⟨k1, k2, k3, rfl, driveOf d (lastState initState l).motor_b2f_index, ?_⟩
    simp only [hp.2]

theorem curveVal_near (i j : Int) (h0 : 0 ≤ i) (h1 : i ≤ 13) (g0 : 0 ≤ j) (g1 : j ≤ 13)
    (hn : j ≤ i + 1 ∧ i ≤ j + 1) :
    curveVal i ≤ curveVal j + 50 ∧ curveVal j ≤ curveVal i + 50 := by
  have hj : j = i - 1 ∨ j = i ∨ j = i + 1 := by omega
  rcases hj with hj | hj | hj <;> subst j <;> interval_cases i <;> first | decide | omega

theorem stepIndex_near (d i : Int) (h0 : 0 ≤ i) (h1 : i ≤ 13) :
    stepIndex d i ≤ i + 1 ∧ i ≤ stepIndex d i + 1 := by
  unfold stepIndex motor_curve_len
  split_ifs <;> omega

/-- One ramping call on pump A: it returns, writes the table entries at the
new indices, and moves each index by at most one position. -/
theorem runPumpA_ramp (d : Int) (s : State) (hs : InTable s) (hd : d ≠ 0) :
    ∃ r, runPumpA d s = some r ∧
      r.2 = [Event.analogWrite motor_a2f (curveVal r.1.motor_a2f_index),
             Event.analogWrite motor_a2e (curveVal r.1.motor_a2e_index)] ∧
      InTable r.1 ∧
      (r.1.motor_a2f_index ≤ s.motor_a2f_index + 1 ∧
        s.motor_a2f_index ≤ r.1.motor_a2f_index + 1) ∧
      (r.1.motor_a2e_index ≤ s.motor_a2e_index + 1 ∧
        s.motor_a2e_index ≤ r.1.motor_a2e_index + 1) := by
  refine ⟨_, runPumpA_eq d s hs, ?_, ?_, ?_, ?_⟩
  · simp only [driveOf, hd, if_false]
  · obtain ⟨⟨a0, a1⟩, ⟨b0, b1⟩, c, f⟩ := hs
    exact ⟨stepIndex_inTable _ _ a0 a1, stepIndex_inTable _ _ b0 b1, c, f⟩
  · exact stepIndex_near _ _ hs.1.1 hs.1.2
  · exact stepIndex_near _ _ hs.2.1.1 hs.2.1.2

theorem rampA_smooth (dirs : List Int) :
    ∀ s : State, InTable s → (∀ d ∈ dirs, d ≠ 0) →
      ∃ l, pumpCalls (dirs.map PumpCall.A) s = some l ∧ l.length = dirs.length ∧
        List.Chain' (SmoothWrites motor_a2f motor_a2e) l ∧
        ∀ r ∈ l.head?,
          r.2 = [Event.analogWrite motor_a2f (curveVal r.1.motor_a2f_index),
                 Event.analogWrite motor_a2e (curveVal r.1.motor_a2e_index)] ∧
          InTable r.1 ∧
          (r.1.motor_a2f_index ≤ s.motor_a2f_index + 1 ∧
            s.motor_a2f_index ≤ r.1.motor_a2f_index + 1) ∧
          (r.1.motor_a2e_index ≤ s.motor_a2e_index + 1 ∧
            s.motor_a2e_index ≤ r.1.motor_a2e_index + 1) := by
  induction dirs with
  | nil => intro s _ _; exact ⟨[], rfl, rfl, List.chain'_nil, by simp⟩
  | cons d rest ih =>
    intro s hs hd
    obtain ⟨r0, e, w0, q, nf, ne⟩ := runPumpA_ramp d s hs (hd d (List.mem_cons_self _ _))
    obtain ⟨l, hl, hlen, hch, hhead⟩ := ih r0.1 q (fun x hx => hd x (List.mem_cons_of_mem _ hx))
    refine ⟨r0 :: l, ?_, by simp [hlen], ?_, ?_⟩
    · simp only [List.map_cons, pumpCalls, pumpCall, e, hl]
    · rw [List.chain'_cons']
      refine ⟨?_, hch⟩
      intro y hy
      obtain ⟨y2, yin, yf, ye⟩ := hhead y hy
      have n1 := curveVal_near _ _ q.1.1 q.1.2 yin.1.1 yin.1.2 yf
      have n2 := curveVal_near _ _ q.2.1.1 q.2.1.2 yin.2.1.1 yin.2.1.2 ye
      exact ⟨_, _, _, _, w0, y2, n1.1, n1.2, n2.1, n2.2⟩
    · intro r hr
      simp only [List.head?_cons, Option.mem_def, Option.some.injEq] at hr
      subst hr
      exact ⟨w0, q, nf, ne⟩

/-- One ramping call on pump B: it returns, writes the table entries at the
new indices, and moves each index by at most one position. -/
theorem runPumpB_ramp (d : Int) (s : State) (hs : InTable s) (hd : d ≠ 0) :
    ∃ r, runPumpB d s = some r ∧
      r.2 = [Event.analogWrite motor_b2f (curveVal r.1.motor_b2f_index),
             Event.analogWrite motor_b2e (curveVal r.1.motor_b2e_index)] ∧
      InTable r.1 ∧
      (r.1.motor_b2f_index ≤ s.motor_b2f_index + 1 ∧
        s.motor_b2f_index ≤ r.1.motor_b2f_index + 1) ∧
      (r.1.motor_b2e_index ≤ s.motor_b2e_index + 1 ∧
        s.motor_b2e_index ≤ r.1.motor_b2e_index + 1) := by
  refine ⟨_, runPumpB_eq d s hs, ?_, ?_, ?_, ?_⟩
  · simp only [driveOf, hd, if_false]
  · obtain ⟨c, f, ⟨a0, a1⟩, ⟨b0, b1⟩⟩ := hs
    exact ⟨c, f, stepIndex_inTable _ _ a0 a1, stepIndex_inTable _ _ b0 b1⟩
  · exact stepIndex_near _ _ hs.2.2.1.1 hs.2.2.1.2
  · exact stepIndex_near _ _ hs.2.2.2.1 hs.2.2.2.2

theorem rampB_smooth (dirs : List Int) :
    ∀ s : State, InTable s → (∀ d ∈ dirs, d ≠ 0) →
      ∃ l, pumpCalls (dirs.map PumpCall.B) s = some l ∧ l.length = dirs.length ∧
        List.Chain' (SmoothWrites motor_b2f motor_b2e) l ∧
        ∀ r ∈ l.head?,
          r.2 = [Event.analogWrite motor_b2f (curveVal r.1.motor_b2f_index),
                 Event.analogWrite motor_b2e (curveVal r.1.motor_b2e_index)] ∧
          InTable r.1 ∧
          (r.1.motor_b2f_index ≤ s.motor_b2f_index + 1 ∧
            s.motor_b2f_index ≤ r.1.motor_b2f_index + 1) ∧
          (r.1.motor_b2e_index ≤ s.motor_b2e_index + 1 ∧
            s.motor_b2e_index ≤ r.1.motor_b2e_index + 1) := by
  induction dirs with
  | nil => intro s _ _; exact ⟨[], rfl, rfl, List.chain'_nil, by simp⟩
  | cons d rest ih =>
    intro s hs hd
    obtain ⟨r0, e, w0, q, nf, ne⟩ := runPumpB_ramp d s hs (hd d (List.mem_cons_self _ _))
    obtain ⟨l, hl, hlen, hch, hhead⟩ := ih r0.1 q (fun x hx => hd x (List.mem_cons_of_mem _ hx))
    refine ⟨r0 :: l, ?_, by simp [hlen], ?_, ?_⟩
    · simp only [List.map_cons, pumpCalls, pumpCall, e, hl]
    · rw [List.chain'_cons']
      refine ⟨?_, hch⟩
      intro y hy
      obtain ⟨y2, yin, yf, ye⟩ := hhead y hy
      have n1 := curveVal_near _ _ q.2.2.1.1 q.2.2.1.2 yin.2.2.1.1 yin.2.2.1.2 yf
      have n2 := curveVal_near _ _ q.2.2.2.1 q.2.2.2.2 yin.2.2.2.1 yin.2.2.2.2 ye
      exact ⟨_, _, _, _, w0, y2, n1.1, n1.2, n2.1, n2.2⟩
    · intro r hr
      simp only [List.head?_cons, Option.mem_def, Option.some.injEq] at hr
      subst hr
      exact ⟨w0, q, nf, ne⟩

/-- C16: take a state whose ramp indices are in the table, as every
reachable one is, and any sequence of non-zero directions, raise and empty
steps mixed in any order.  Applied to pump A, and likewise to pump B, every
call returns, and the drive levels written to the forward output by two
consecutive calls differ by at most 50, as do those written to the reverse
output.  The table `motor_curve` is strictly ascending with adjacent entries
at most 50 apart, and 50 is reached between entries 78 and 128. -/
theorem ramp_steps_bounded (dirs : List Int) (s : State) (ht : InTable s)
    (hd : ∀ d ∈ dirs, d ≠ 0) :
    (∃ l, pumpCalls (dirs.map PumpCall.A) s = some l ∧ l.length = dirs.length ∧
      List.Chain' (SmoothWrites motor_a2f motor_a2e) l) ∧
    (∃ l, pumpCalls (dirs.map PumpCall.B) s = some l ∧ l.length = dirs.length ∧
      List.Chain' (SmoothWrites motor_b2f motor_b2e) l) ∧
    List.Chain' (fun a b => a < b ∧ b ≤ a + 50) motor_curve ∧
    motor_curve[5]? = some 78 ∧ motor_curve[6]? = some 128 := by
  obtain ⟨la, ha, hal, hac, -⟩ := rampA_smooth dirs s ht hd
  obtain ⟨lb, hb, hbl, hbc, -⟩ := rampB_smooth dirs s ht hd
  exact ⟨⟨la, ha, hal, hac⟩, ⟨lb, hb, hbl, hbc⟩, by simp [motor_curve], rfl, rfl⟩

/-- Witness of C16: from the initial state pump A is raised six times, then
reversed twice, then raised again. -/
theorem ramp_steps_bounded_witness :
    InTable initState ∧ (∀ d ∈ [(1 : Int), 1, 1, 1, 1, 1, -1, -1, 1], d ≠ 0) ∧
    ∃ l, pumpCalls ([(1 : Int), 1, 1, 1, 1, 1, -1, -1, 1].map PumpCall.A) initState = some l ∧
      l.length = 9 ∧ List.Chain' (SmoothWrites motor_a2f motor_a2e) l :=
  ⟨by decide, by decide,
    (ramp_steps_bounded [(1 : Int), 1, 1, 1, 1, 1, -1, -1, 1] initState (by decide)
      (by decide)).1⟩

theorem readCurve_ne_none_iff (i : Int) : readCurve i ≠ none ↔ 0 ≤ i ∧ i < 14 := by
  unfold readCurve
  by_cases h : 0 ≤ i
  · rw [if_pos h]
    have hl : motor_curve.length = 14 := rfl
    rw [ne_eq, List.getElem?_eq_none_iff, hl]
    omega
  · rw [if_neg h]
    simp [h]

/-- C17: `motor_curve` has 14 entries and a read of it is inside the table
exactly for indices from 0 to 13.  For every sequence of `runPumpA` /
`runPumpB` calls from the initial state every call returns, which it does only
if each of its reads is inside the table, and each index after each call, the
index the call has read the table at, is at least 0 and below 14. -/
theorem table_reads_in_bounds (calls : List PumpCall) :
    motor_curve.length = 14 ∧
    (∀ i : Int, readCurve i ≠ none ↔ 0 ≤ i ∧ i < 14) ∧
    ∃ l, pumpCalls calls initState = some l ∧ l.length = calls.length ∧
      ∀ r ∈ l,
        (0 ≤ r.1.motor_a2f_index ∧ r.1.motor_a2f_index < 14 ∧
          readCurve r.1.motor_a2f_index ≠ none) ∧
        (0 ≤ r.1.motor_a2e_index ∧ r.1.motor_a2e_index < 14 ∧
          readCurve r.1.motor_a2e_index ≠ none) ∧
        (0 ≤ r.1.motor_b2f_index ∧ r.1.motor_b2f_index < 14 ∧
          readCurve r.1.motor_b2f_index ≠ none) ∧
        (0 ≤ r.1.motor_b2e_index ∧ r.1.motor_b2e_index < 14 ∧
          readCurve r.1.motor_b2e_index ≠ none) := by
  obtain ⟨l, hl, hlen, hall⟩ := pumpCalls_inTable calls initState (by decide)
  refine ⟨rfl, readCurve_ne_none_iff, l, hl, hlen, ?_⟩
  intro r hr
  obtain ⟨⟨a0, a1⟩, ⟨b0, b1⟩, ⟨c0, c1⟩, ⟨d0, d1⟩⟩ := hall r hr
  exact ⟨⟨a0, by omega, (readCurve_ne_none_iff _).mpr ⟨a0, by omega⟩⟩,
    ⟨b0, by omega, (readCurve_ne_none_iff _).mpr ⟨b0, by omega⟩⟩,
    ⟨c0, by omega, (readCurve_ne_none_iff _).mpr ⟨c0, by omega⟩⟩,
    ⟨d0, by omega, (readCurve_ne_none_iff _).mpr ⟨d0, by omega⟩⟩⟩

/-- While the reading stays LOW from the initial button state nothing is
accepted. -/
theorem idle_low_states (ins : List Input) :
    ∀ s : State, InTable s → s.buttonState = LOW → s.lastButtonState = LOW →
      (∀ i ∈ ins, i.reading = LOW) →
      ∃ l, states ins s = some l ∧ l.length = ins.length ∧
        ∀ x ∈ l, x.running = s.running := by
  induction ins with
  | nil => intro s _ _ _ _; exact ⟨[], rfl, rfl, by simp⟩
  | cons inp rest ih =>
    intro s ht hb hl hall
    have hr : inp.reading = LOW := hall inp (List.mem_cons_self _ _)
    have hd := debounce_stable inp s (hr.trans hl.symm) (hr.trans hb.symm)
    obtain ⟨b1, -, b3, -, b5⟩ := afterLoop_button inp s
    rw [hd] at b1 b3
    obtain ⟨l, h1, h2, h3⟩ := ih (afterLoop inp s) (afterLoop_inTable inp s ht)
      (b3.trans hb) (b5.trans hr) (fun i hi => hall i (List.mem_cons_of_mem _ hi))
    refine ⟨afterLoop inp s :: l, states_cons_some _ _ _ _ ht h1, by simp [h2], ?_⟩
    intro x hx
    rcases List.mem_cons.mp hx with rfl | hx
    · exact b1
    · exact (h3 x hx).trans b1

/-- C18: from the initial state, with the raw reading HIGH in every pass
(`first` at time `t`, then `pre`, `fire`, `post`), `running` is 0 after `first`
and after every pass at a time up to `t + 150`, is 1 after the first pass at a
time above `t + 150`, and is 1 after every later pass; the millisecond clock
does not wrap before that pass.  With the reading LOW in every pass (`lows`,
at any times) `running` is 0 after every pass. -/
theorem self_start_with_idle_high_button (first fire : Input) (pre post lows : List Input)
    (hfirst : first.reading = HIGH)
    (hpre : ∀ i ∈ pre, i.reading = HIGH ∧ first.millis ≤ i.millis ∧
      i.millis ≤ first.millis + 150)
    (hfire : fire.reading = HIGH ∧ first.millis + 150 < fire.millis ∧
      fire.millis < 4294967296)
    (hpost : ∀ i ∈ post, i.reading = HIGH)
    (hlows : ∀ i ∈ lows, i.reading = LOW) :
    (∃ l1 t l2, states (first :: (pre ++ fire :: post)) initState = some (l1 ++ t :: l2) ∧
      l1.length = pre.length + 1 ∧ l2.length = post.length ∧
      (∀ x ∈ l1, x.running = 0) ∧ t.running = 1 ∧ (∀ x ∈ l2, x.running = 1)) ∧
    (∃ l, states lows initState = some l ∧ l.length = lows.length ∧
      ∀ x ∈ l, x.running = 0) := by
  have ht : InTable initState := by decide
  constructor
  · have hc : first.reading ≠ initState.lastButtonState := by
      rw [hfirst]; decide
    have hdb := debounce_change first initState hc
    obtain ⟨b1, -, b3, b4, b5⟩ := afterLoop_button first initState
    rw [hdb] at b1 b3 b4
    have hb2 : (afterLoop first initState).buttonState ≠ HIGH := by
      rw [b3]; show initState.buttonState ≠ HIGH; decide
    obtain ⟨l1, t, l2, h1, h2, h3, h4, h5, h6⟩ :=
      pending_states first.millis fire post ⟨hfire.1, by omega, hfire.2.2⟩ hpost pre
        (afterLoop first initState) (afterLoop_inTable first initState ht) hb2
        (b5.trans hfirst) b4 hpre
    have r0 : (afterLoop first initState).running = 0 := b1
    have r1 : toggled (afterLoop first initState).running = 1 := by rw [r0]; rfl
    refine ⟨afterLoop first initState :: l1, t, l2, ?_, by simp [h2], h3, ?_,
      h5.trans r1, ?_⟩
    · exact states_cons_some _ _ _ _ ht h1
    · intro x hx
      rcases List.mem_cons.mp hx with rfl | hx
      · exact r0
      · exact (h4 x hx).trans r0
    · intro x hx
      exact (h6 x hx).trans r1
  · exact idle_low_states lows initState ht rfl rfl hlows

/-- Witness of C18: passes every 50 ms from time 0 with the button never
touched (reading HIGH); `running` becomes 1 in the pass at 200 ms. -/
theorem self_start_with_idle_high_button_witness :
    (∃ l1 t l2, states [⟨580, 580, 1, 0⟩, ⟨580, 580, 1, 50⟩, ⟨580, 580, 1, 100⟩,
        ⟨580, 580, 1, 150⟩, ⟨580, 580, 1, 200⟩, ⟨580, 580, 1, 250⟩] initState =
          some (l1 ++ t :: l2) ∧
      l1.length = 4 ∧ l2.length = 1 ∧
      (∀ x ∈ l1, x.running = 0) ∧ t.running = 1 ∧ (∀ x ∈ l2, x.running = 1)) ∧
    (∃ l, states [⟨580, 580, 0, 0⟩, ⟨580, 580, 0, 1000⟩] initState = some l ∧ l.length = 2 ∧
      ∀ x ∈ l, x.running = 0) :=
  self_start_with_idle_high_button ⟨580, 580, 1, 0⟩ ⟨580, 580, 1, 200⟩
    [⟨580, 580, 1, 50⟩, ⟨580, 580, 1, 100⟩, ⟨580, 580, 1, 150⟩] [⟨580, 580, 1, 250⟩]
    [⟨580, 580, 0, 0⟩, ⟨580, 580, 0, 1000⟩] rfl (by decide) (by decide) (by decide) (by decide)

/-- A running pass in which both directions are 0 after the threshold checks:
the phase decision sets both directions and writes both solenoids. -/
theorem phase_pass (inp : Input) (s : State) (hrun : (debounce inp s).1.running ≠ 0)
    (ha : (checkA (levelA inp) s).raisingA = 0) (hb : (checkB (levelB inp) s).raisingB = 0) :
    (levelA inp > centerWaterMark →
      (afterLoop inp s).raisingA = -1 ∧ (afterLoop inp s).raisingB = -1 ∧
      solenoidWrites (decidedWrites inp s ++ pumpWrites inp s) =
        [Event.digitalWrite solenoid_a1 HIGH, Event.digitalWrite solenoid_b1 LOW]) ∧
    (levelA inp ≤ centerWaterMark →
      (afterLoop inp s).raisingA = 1 ∧ (afterLoop inp s).raisingB = 1 ∧
      solenoidWrites (decidedWrites inp s ++ pumpWrites inp s) =
        [Event.digitalWrite solenoid_a1 LOW, Event.digitalWrite solenoid_b1 HIGH]) := by
  obtain ⟨da, db⟩ := decided_running inp s hrun
  obtain ⟨ca, cb⟩ := checked_raising inp s
  rw [ha] at ca
  rw [hb] at cb
  have hA : (afterLoop inp s).raisingA = if levelA inp > centerWaterMark then -1 else 1 := by
    show (decided inp s).raisingA = _
    rw [da, if_pos ⟨ha, hb⟩]
  have hB : (afterLoop inp s).raisingB = if levelA inp > centerWaterMark then -1 else 1 := by
    show (decided inp s).raisingB = _
    rw [db, if_pos ⟨ha, hb⟩]
  have hsol : solenoidWrites (decidedWrites inp s ++ pumpWrites inp s) =
      if levelA inp > centerWaterMark then
        [Event.digitalWrite solenoid_a1 HIGH, Event.digitalWrite solenoid_b1 LOW]
      else [Event.digitalWrite solenoid_a1 LOW, Event.digitalWrite solenoid_b1 HIGH] := by
    rw [solenoidWrites_loop, cycle_running _ _ _ hrun]
    simp only [levelA, levelB] at ca cb ⊢
    rw [if_pos ⟨ca, cb⟩]
    split_ifs <;> rfl
  constructor
  · intro hl
    refine ⟨?_, ?_, ?_⟩
    · rw [hA, if_pos hl]
    · rw [hB, if_pos hl]
    · rw [hsol, if_pos hl]
  · intro hl
    refine ⟨?_, ?_, ?_⟩
    · rw [hA, if_neg (not_lt.mpr hl)]
    · rw [hB, if_neg (not_lt.mpr hl)]
    · rw [hsol, if_neg (not_lt.mpr hl)]

/-- C19: in a running pass in which vessel B is stopped or stops (its
direction is 0, or +1 at a level of at least `highWaterMark`, or -1 at a
level of at most `lowWaterMark`), a vessel A that was filling and has reached
`highWaterMark` leaves the pass in Exhale (both directions -1, solenoid A
written HIGH, solenoid B LOW), and a vessel A that was emptying and has
reached `lowWaterMark` leaves it in Inhale (both directions +1, solenoid A
written LOW, solenoid B HIGH); `lowWaterMark <= centerWaterMark <
highWaterMark`. -/
theorem automatic_alternation (inp : Input) (s : State) (ht : InTable s)
    (hrun : (debounce inp s).1.running ≠ 0)
    (hB : s.raisingB = 0 ∨ (s.raisingB = 1 ∧ levelB inp ≥ highWaterMark) ∨
      (s.raisingB = -1 ∧ levelB inp ≤ lowWaterMark)) :
    lowWaterMark ≤ centerWaterMark ∧ centerWaterMark < highWaterMark ∧
    ∃ s1 ev, loop inp s = some (s1, ev) ∧
      (s.raisingA = 1 → levelA inp ≥ highWaterMark →
        s1.raisingA = -1 ∧ s1.raisingB = -1 ∧
        solenoidWrites ev =
          [Event.digitalWrite solenoid_a1 HIGH, Event.digitalWrite solenoid_b1 LOW]) ∧
      (s.raisingA = -1 → levelA inp ≤ lowWaterMark →
        s1.raisingA = 1 ∧ s1.raisingB = 1 ∧
        solenoidWrites ev =
          [Event.digitalWrite solenoid_a1 LOW, Event.digitalWrite solenoid_b1 HIGH]) := by
  obtain ⟨hh, hlo, hc⟩ := marks_eq
  have kb : (checkB (levelB inp) s).raisingB = 0 := by
    rw [checkB_raisingB]
    rcases hB with h | ⟨h1, h2⟩ | ⟨h1, h2⟩
    · rw [h]; rfl
    · rw [if_pos h1, if_pos h2]
    · rw [if_neg (by omega), if_pos h1, if_pos h2]
  refine ⟨by rw [hlo, hc]; decide, by rw [hh, hc]; decide, afterLoop inp s, _,
    loop_eq inp s ht, ?_, ?_⟩
  · intro h1 hl
    have ka : (checkA (levelA inp) s).raisingA = 0 := by
      rw [checkA_raisingA, if_pos h1, if_pos hl]
    exact (phase_pass inp s hrun ka kb).1 (by rw [hh] at hl; rw [hc]; omega)
  · intro h1 hl
    have ka : (checkA (levelA inp) s).raisingA = 0 := by
      rw [checkA_raisingA, if_neg (by omega), if_pos h1, if_pos hl]
    exact (phase_pass inp s hrun ka kb).2 (by rw [hlo] at hl; rw [hc]; omega)

/-- Witness of C19: both vessels filling and both at level 16; the pass ends
in Exhale. -/
theorem automatic_alternation_witness :
    InTable ⟨1, 1, 1, 9, 9, 9, 9, 1, 1, 1, 0⟩ ∧
    (debounce ⟨232, 232, 1, 1000⟩ ⟨1, 1, 1, 9, 9, 9, 9, 1, 1, 1, 0⟩).1.running ≠ 0 ∧
    ∃ s1 ev, loop ⟨232, 232, 1, 1000⟩ ⟨1, 1, 1, 9, 9, 9, 9, 1, 1, 1, 0⟩ = some (s1, ev) ∧
      s1.raisingA = -1 ∧ s1.raisingB = -1 ∧
      solenoidWrites ev =
        [Event.digitalWrite solenoid_a1 HIGH, Event.digitalWrite solenoid_b1 LOW] := by
  obtain ⟨-, -, s1, ev, h, h1, -⟩ :=
    automatic_alternation ⟨232, 232, 1, 1000⟩ ⟨1, 1, 1, 9, 9, 9, 9, 1, 1, 1, 0⟩
      (by decide) (by decide) (by decide)
  exact ⟨by decide, by decide, s1, ev, h, h1 rfl (by decide)⟩

theorem curveVal_pos (i : Int) (h0 : 0 ≤ i) (h1 : i ≤ 13) : 0 < curveVal i := by
  interval_cases i <;> decide

theorem driveOf_pos (d i : Int) (hd : d ≠ 0) (h0 : 0 ≤ i) (h1 : i ≤ 13) : 0 < driveOf d i := by
  unfold driveOf
  rw [if_neg hd]
  exact curveVal_pos _ (stepIndex_inTable d i h0 h1).1 (stepIndex_inTable d i h0 h1).2

/-- C20: whatever the state and the levels, the cycle block of a running
controller does not leave both directions 0.  So after every pass in which the
controller is running once the button has been processed, `raisingA` and
`raisingB` are not both 0, and in that pass a pump was called with a non-zero
direction: a non-zero drive level was written to a motor output. -/
theorem running_pass_never_idle (inp : Input) (s : State) (ht : InTable s)
    (hrun : (debounce inp s).1.running ≠ 0) :
    (∀ (hA hB : Int) (t : State), t.running ≠ 0 →
      ¬ ((cycle hA hB t).1.raisingA = 0 ∧ (cycle hA hB t).1.raisingB = 0)) ∧
    ∃ s1 ev, loop inp s = some (s1, ev) ∧
      ¬ (s1.raisingA = 0 ∧ s1.raisingB = 0) ∧
      (s1.raisingA ≠ 0 →
        ∃ v, Event.analogWrite motor_a2f v ∈ ev ∧ 0 < v) ∧
      (s1.raisingB ≠ 0 →
        ∃ v, Event.analogWrite motor_b2f v ∈ ev ∧ 0 < v) := by
  have hcyc : ∀ (hA hB : Int) (t : State), t.running ≠ 0 →
      ¬ ((cycle hA hB t).1.raisingA = 0 ∧ (cycle hA hB t).1.raisingB = 0) := by
    intro hA hB t hr
    rw [cycle_running _ _ _ hr]
    by_cases hz : (checkB hB (checkA hA t)).raisingA = 0 ∧ (checkB hB (checkA hA t)).raisingB = 0
    · rw [if_pos hz]
      split_ifs <;> simp [exhale, inhale]
    · rw [if_neg hz]
      exact hz
  have hdec : ¬ ((decided inp s).raisingA = 0 ∧ (decided inp s).raisingB = 0) :=
    hcyc _ _ _ hrun
  have hl := loop_eq inp s ht
  obtain ⟨⟨a0, a1⟩, -, ⟨c0, c1⟩, -⟩ := ht
  refine ⟨hcyc, afterLoop inp s, _, hl, hdec, ?_, ?_⟩
  · intro hne
    refine ⟨driveOf (decided inp s).raisingA s.motor_a2f_index, ?_,
      driveOf_pos _ _ hne a0 a1⟩
    simp [pumpWrites]
  · intro hne
    refine ⟨driveOf (decided inp s).raisingB s.motor_b2f_index, ?_,
      driveOf_pos _ _ hne c0 c1⟩
    simp [pumpWrites]

/-- Witness of C20: a running controller with both vessels stopped at level
10 starts Inhale and drives both pumps. -/
theorem running_pass_never_idle_witness :
    InTable ⟨1, 0, 0, 0, 0, 0, 0, 1, 1, 1, 0⟩ ∧
    (debounce ⟨580, 580, 1, 1000⟩ ⟨1, 0, 0, 0, 0, 0, 0, 1, 1, 1, 0⟩).1.running ≠ 0 ∧
    ∃ s1 ev, loop ⟨580, 580, 1, 1000⟩ ⟨1, 0, 0, 0, 0, 0, 0, 1, 1, 1, 0⟩ = some (s1, ev) ∧
      ¬ (s1.raisingA = 0 ∧ s1.raisingB = 0) := by
  obtain ⟨-, s1, ev, h, h1, -⟩ :=
    running_pass_never_idle ⟨580, 580, 1, 1000⟩ ⟨1, 0, 0, 0, 0, 0, 0, 1, 1, 1, 0⟩
      (by decide) (by decide)
  exact ⟨by decide, by decide, s1, ev, h, h1⟩

end RespDuino
